import Mathlib

/-!
# Verification of the djemini music-organizer pipeline

A shallow embedding, in Lean 4, of the parts of the djemini repository that
the specification's testable claims are about:

* the relational store (`src/db/index.ts`, class `DatabaseService`),
* ingestion (`src/services/sync.ts`, class `SyncService`),
* classification (`src/cli/analyze.ts`, `handleAnalyzeCommand`, together
  with `src/services/gemini.ts`, `parseResponse`),
* playlist synthesis (`src/cli/create.ts`, `handleCreateCommand`),
* publishing (`src/cli/push.ts`, `handlePushCommand`),
* the interactive dispatcher (`src/index.ts`, `handleCommand`) and the
  `sources add <url>` flow (`src/cli/sources.ts`).

TypeScript values are embedded as follows: strings stay `String` (or
`List Char` where character-level reasoning is needed), nullable fields
become `Option`, SQLite relations become Lean `List`s of structure rows,
`CURRENT_TIMESTAMP` becomes an explicit `now : Nat` parameter, and every
remote service (YouTube, Gemini) becomes an explicit oracle argument so a
run of a command is a pure function of the store, the oracle and the input.
-/

namespace Djemini

/-- The `type` column of the `sources` table: `'liked' | 'playlist'`. -/
inductive SourceType where
  | liked
  | playlist
deriving DecidableEq, Repr

/-- A row of the `sources` table (see `SCHEMA` in `src/db/schema.ts` and the
`Source` interface in `src/types.ts`).  `created_at` is not modelled: no
claim depends on it and no operation other than row creation touches it. -/
structure Source where
  id : Nat
  type : SourceType
  name : String
  youtube_id : Option String
  last_synced : Option Nat
deriving DecidableEq, Repr

/-- A row of the `songs` table (`Song` in `src/types.ts`).  `added_at` is
not modelled (it only drives display ordering). -/
structure Song where
  id : String
  title : String
  artist : Option String
  source_id : Option Nat
  ai_processed : Bool
deriving DecidableEq, Repr

/-- A row of the `categories` table (`Category` in `src/types.ts`).  The
`confidence` REAL column is modelled over `ℚ`; the pipeline only ever
writes the constant `1.0`. -/
structure Category where
  song_id : String
  ctype : String
  value : String
  confidence : ℚ
deriving DecidableEq, Repr

/-- A row of the `playlists` table (`Playlist` in `src/types.ts`);
timestamps are not modelled. -/
structure Playlist where
  id : String
  name : String
  youtube_playlist_id : Option String
  category_type : String
  category_value : String
deriving DecidableEq, Repr

/-- A row of the `playlist_songs` join table. -/
structure Membership where
  playlist_id : String
  song_id : String
deriving DecidableEq, Repr

/-- The five relations owned by `DatabaseService`.  Each relation is the
list of its rows in insertion order. -/
structure DB where
  sources : List Source
  songs : List Song
  categories : List Category
  playlists : List Playlist
  playlist_songs : List Membership
deriving DecidableEq, Repr

namespace DB

/-- Embeds `getSourceById` — `SELECT * FROM sources WHERE id = ?`. -/
def getSourceById (db : DB) (id : Nat) : Option Source :=
  db.sources.find? (fun s => s.id = id)

/-- Embeds `getSourceByYoutubeId` — `SELECT * FROM sources WHERE youtube_id = ?`. -/
def getSourceByYoutubeId (db : DB) (yid : String) : Option Source :=
  db.sources.find? (fun s => s.youtube_id = some yid)

/-- Embeds `insertSource` — plain `INSERT INTO sources (type, name, youtube_id)`;
the fresh `AUTOINCREMENT` row id is supplied explicitly. -/
def insertSource (db : DB) (freshId : Nat) (type : SourceType) (name : String)
    (yid : Option String) : DB :=
  { db with sources := db.sources ++
      [{ id := freshId, type := type, name := name, youtube_id := yid,
         last_synced := none }] }

/-- Embeds `updateSourceSyncTime` — `UPDATE sources SET last_synced = CURRENT_TIMESTAMP
WHERE id = ?`; the current timestamp is the explicit `now`. -/
def updateSourceSyncTime (db : DB) (id : Nat) (now : Nat) : DB :=
  { db with sources :=
      db.sources.map (fun s => if s.id = id then { s with last_synced := some now } else s) }

/-- One `INSERT OR IGNORE INTO songs` statement: the row is inserted only
when no row with the same primary-key `id` exists; `ai_processed` takes its
schema default `0`. -/
def insertSongRow (songs : List Song) (s : Song) : List Song :=
  if songs.any (fun r => r.id = s.id) then songs else songs ++ [s]

/-- Embeds `insertSongs` — the prepared `INSERT OR IGNORE` run over the batch
inside one transaction. -/
def insertSongs (db : DB) (batch : List Song) : DB :=
  { db with songs := batch.foldl insertSongRow db.songs }

/-- Embeds `markSongAsProcessed` — `UPDATE songs SET ai_processed = 1 WHERE id = ?`. -/
def markSongAsProcessed (db : DB) (id : String) : DB :=
  { db with songs :=
      db.songs.map (fun s => if s.id = id then { s with ai_processed := true } else s) }

/-- Embeds `insertCategory` — plain `INSERT INTO categories`. -/
def insertCategory (db : DB) (c : Category) : DB :=
  { db with categories := db.categories ++ [c] }

/-- Embeds `getCategoriesBySongId` — `SELECT * FROM categories WHERE song_id = ?`. -/
def getCategoriesBySongId (db : DB) (sid : String) : List Category :=
  db.categories.filter (fun c => c.song_id = sid)

/-- Embeds `getPlaylistByName` — `SELECT * FROM playlists WHERE name = ?`. -/
def getPlaylistByName (db : DB) (name : String) : Option Playlist :=
  db.playlists.find? (fun p => p.name = name)

/-- Embeds `insertPlaylist` — `INSERT OR REPLACE INTO playlists` keyed by the
primary-key `id`: any existing row with the same id is replaced. -/
def insertPlaylist (db : DB) (p : Playlist) : DB :=
  { db with playlists := (db.playlists.filter (fun q => q.id ≠ p.id)) ++ [p] }

/-- Embeds `updatePlaylistYouTubeId` — `UPDATE playlists SET youtube_playlist_id = ?
WHERE id = ?`. -/
def updatePlaylistYouTubeId (db : DB) (id : String) (yid : String) : DB :=
  { db with playlists :=
      db.playlists.map (fun p =>
        if p.id = id then { p with youtube_playlist_id := some yid } else p) }

/-- Embeds `addSongToPlaylist` — `INSERT OR IGNORE INTO playlist_songs`, keyed by
the `(playlist_id, song_id)` primary key. -/
def addSongToPlaylist (db : DB) (pid sid : String) : DB :=
  if db.playlist_songs.any (fun m => m.playlist_id = pid ∧ m.song_id = sid) then db
  else { db with playlist_songs := db.playlist_songs ++ [⟨pid, sid⟩] }

/-- Embeds `getPlaylistSongs` — the join of `playlist_songs` (rows of the given
playlist) with `songs`.  The SQL orders by `added_at DESC`; membership
insertion order is used here, which no claim distinguishes. -/
def getPlaylistSongs (db : DB) (pid : String) : List Song :=
  (db.playlist_songs.filter (fun m => m.playlist_id = pid)).filterMap
    (fun m => db.songs.find? (fun s => s.id = m.song_id))

/-- Embeds `clearPlaylistSongs` — `DELETE FROM playlist_songs WHERE playlist_id = ?`. -/
def clearPlaylistSongs (db : DB) (pid : String) : DB :=
  { db with playlist_songs := db.playlist_songs.filter (fun m => m.playlist_id ≠ pid) }

/-- Embeds `resetData` — deletes every row of `playlist_songs`, `categories`,
`playlists` and `songs`, then `UPDATE sources SET last_synced = NULL`. -/
def resetData (db : DB) : DB :=
  { sources := db.sources.map (fun s => { s with last_synced := none }),
    songs := [], categories := [], playlists := [], playlist_songs := [] }

/-- Embeds `clearPlaylists` — deletes every row of `playlist_songs` and `playlists`. -/
def clearPlaylists (db : DB) : DB :=
  { db with playlists := [], playlist_songs := [] }

end DB

/-! ## JavaScript string primitives

The commands manipulate strings with `toLowerCase`, `trim`, `split`,
`includes` and anchored regex replacement.  These are modelled here at the
character-list level.  `toLowerCase` is modelled on its ASCII behaviour
(the only range the repository's patterns and separators exercise). -/

/-- The 26 ASCII case pairs, used to model `String.prototype.toLowerCase`. -/
def lowerPairs : List (Char × Char) :=
  [('A', 'a'), ('B', 'b'), ('C', 'c'), ('D', 'd'), ('E', 'e'), ('F', 'f'),
   ('G', 'g'), ('H', 'h'), ('I', 'i'), ('J', 'j'), ('K', 'k'), ('L', 'l'),
   ('M', 'm'), ('N', 'n'), ('O', 'o'), ('P', 'p'), ('Q', 'q'), ('R', 'r'),
   ('S', 's'), ('T', 't'), ('U', 'u'), ('V', 'v'), ('W', 'w'), ('X', 'x'),
   ('Y', 'y'), ('Z', 'z')]

/-- ASCII model of `toLowerCase` on one character. -/
def jsLowerChar (c : Char) : Char :=
  match lowerPairs.find? (fun p => p.1 = c) with
  | some p => p.2
  | none => c

/-- Model of `toLowerCase` on a character list. -/
def jsLowerList (cs : List Char) : List Char :=
  cs.map jsLowerChar

/-- Model of `s.toLowerCase()` on strings. -/
def jsLower (s : String) : String :=
  String.mk (jsLowerList s.data)

/-- The whitespace class `\s` restricted to the characters that can reach
the dispatcher (space, tab, newline, carriage return). -/
def isWsChar (c : Char) : Bool :=
  c = ' ' ∨ c = '\t' ∨ c = '\n' ∨ c = '\r'

/-- Model of `String.prototype.trim` on a character list. -/
def jsTrimList (cs : List Char) : List Char :=
  ((cs.dropWhile isWsChar).reverse.dropWhile isWsChar).reverse

/-- Model of `s.trim()` on strings. -/
def jsTrimStr (s : String) : String :=
  String.mk (jsTrimList s.data)

/-- Whether `needle` is a prefix of `hay`. -/
def startsWithList : List Char → List Char → Bool
  | _, [] => true
  | [], _ :: _ => false
  | c :: cs, n :: ns => c = n && startsWithList cs ns

/-- Whether `needle` occurs contiguously inside `hay`. -/
def containsSubList (needle : List Char) : List Char → Bool
  | [] => startsWithList [] needle
  | c :: t => startsWithList (c :: t) needle || containsSubList needle t

/-- Whether `suffix` ends `cs`. -/
def endsWithList (cs suffix : List Char) : Bool :=
  startsWithList cs.reverse suffix.reverse

/-- Model of `t.includes(sep)`: `sep` occurs contiguously inside `t`. -/
def containsSub (t sep : String) : Bool :=
  containsSubList sep.data t.data

/-- Fuel-indexed splitter behind `jsSplitOn`; each step consumes at least
one character of the haystack, so `hay.length` fuel always suffices (the
`max 1` covers the empty separator, which never occurs in this file). -/
def splitOnFuel (sep : List Char) : Nat → List Char → List (List Char)
  | _, [] => [[]]
  | 0, l => [l]
  | fuel + 1, c :: rest =>
    if startsWithList (c :: rest) sep then
      [] :: splitOnFuel sep fuel ((c :: rest).drop (max 1 sep.length))
    else
      match splitOnFuel sep fuel rest with
      | [] => [[c]]
      | piece :: pieces => (c :: piece) :: pieces

/-- Model of `s.split(sep)` for a non-empty separator: pieces between
leftmost-disjoint occurrences, with empty leading/trailing pieces where
the separator touches an end. -/
def splitOnCore (sep hay : List Char) : List (List Char) :=
  splitOnFuel sep hay.length hay

/-- Model of `title.split(sep)` on strings. -/
def jsSplitOn (s sep : String) : List String :=
  (splitOnCore sep.data s.data).map String.mk

/-- Model of `parts.join(sep)`. -/
def joinWith (sep : String) (parts : List String) : String :=
  String.mk (List.intercalate sep.data (parts.map String.data))

/-! ## Ingestion (`src/services/sync.ts`)

`SyncService.extractArtistFromTitle`, `cleanArtistName`,
`filterMusicVideos` and `syncSource`.  The two fetch routines
(`fetchLikedVideos`, `fetchPlaylistVideos`) page through the remote
catalog and map every raw item through `extractArtistFromTitle`; the
remote catalog is modelled as the list of raw items it would yield. -/

/-- Embeds `cleanArtistName` — `artist.replace(/ - Topic$/i, '').trim()`: when the
string ends (case-insensitively) in `" - Topic"`, those 8 characters are
removed; the result is trimmed either way. -/
def cleanArtistName (a : String) : String :=
  if endsWithList (jsLowerList a.data) " - topic".data then
    jsTrimStr (String.mk (a.data.take (a.data.length - 8)))
  else
    jsTrimStr a

/-- The separator tokens of `extractArtistFromTitle`, in the source's
priority order: hyphen-like dashes, colon, pipe. -/
def separators : List String :=
  [" - ", " – ", " — ", ": ", " | "]

/-- The loop body of `extractArtistFromTitle`: try each separator in
order; on `title.includes(sep)` split, and accept the split only when the
part before the first occurrence is non-empty. -/
def trySeps (title : String) : List String → Option (String × String)
  | [] => none
  | sep :: rest =>
    if containsSub title sep then
      match jsSplitOn title sep with
      | p0 :: p1 :: ps =>
        if p0 ≠ "" then
          some (cleanArtistName (jsTrimStr p0),
                jsTrimStr (joinWith sep (p1 :: ps)))
        else trySeps title rest
      | _ => trySeps title rest
    else trySeps title rest

/-- Embeds `extractArtistFromTitle(title, fallback)` — returns
`(artist, cleanTitle)`; when no separator splits the title, the
publisher/channel name `fallback` is used as artist. -/
def extractArtistFromTitle (title fallback : String) : String × String :=
  match trySeps title separators with
  | some r => r
  | none => (cleanArtistName fallback, title)

/-- Claim-side predicate: separator `sep` is present in `title` and yields
a non-empty artist part (the text before its first occurrence). -/
def sepMatches (title sep : String) : Bool :=
  containsSub title sep &&
    (match jsSplitOn title sep with
     | p0 :: _ :: _ => p0 ≠ ""
     | _ => false)

/-- A raw catalog entry as the YouTube API yields it before normalization:
`(id, snippet.title, snippet.channelTitle)`. -/
structure RawVideo where
  id : String
  title : String
  channelTitle : String
deriving DecidableEq, Repr

/-- The `VideoItem` record built by the fetch loops of `SyncService`. -/
structure VideoItem where
  id : String
  title : String
  artist : String
  channelTitle : String
deriving DecidableEq, Repr

/-- The per-item normalization done inside `fetchLikedVideos` /
`fetchPlaylistVideos`: artist extraction with the channel title as
fallback. -/
def toVideoItem (r : RawVideo) : VideoItem :=
  let p := extractArtistFromTitle r.title r.channelTitle
  { id := r.id, title := p.2, artist := p.1, channelTitle := r.channelTitle }

/-- The fixed case-insensitive non-music patterns of `filterMusicVideos`. -/
def nonMusicPatterns : List String :=
  ["podcast", "interview", "talk show", "documentary", "news", "vlog",
   "review", "reaction", "tutorial", "lesson", "course"]

/-- Embeds `filterMusicVideos` — keep a video unless some pattern occurs in the
lowercased `title + " " + channelTitle` text. -/
def filterMusicVideos (videos : List VideoItem) : List VideoItem :=
  videos.filter (fun v =>
    let text := jsLower (v.title ++ " " ++ v.channelTitle)
    !(nonMusicPatterns.any (fun pat => containsSub text pat)))

/-- The song rows a sync run builds: normalized upstream items that pass
the non-music filter. -/
def surviving (sourceId : Nat) (upstream : List RawVideo) : List Song :=
  (filterMusicVideos (upstream.map toVideoItem)).map (fun v =>
    { id := v.id, title := v.title, artist := some v.artist,
      source_id := some sourceId, ai_processed := false })

/-- Embeds `SyncService.syncSource(sourceId)` — looks the source up, fetches and
normalizes the upstream items, filters non-music content, and only when at
least one song survives: batch-inserts the songs and refreshes the
source's `last_synced`.  The remote fetch is modelled by the `upstream`
raw-item list; `now` is the wall clock read by `CURRENT_TIMESTAMP`. -/
def syncSource (db : DB) (sourceId : Nat) (upstream : List RawVideo) (now : Nat) :
    Except String DB :=
  match db.getSourceById sourceId with
  | none => .error "Source not found"
  | some _ =>
    let songs := surviving sourceId upstream
    if songs.length > 0 then
      .ok (((db.insertSongs songs).updateSourceSyncTime sourceId now))
    else
      .ok db

/-! ## Classification (`src/cli/analyze.ts` and `src/services/gemini.ts`)

`handleAnalyzeCommand` batches the unprocessed songs (15 per batch),
invokes Gemini once per batch, persists the returned categories and marks
the returned songs processed.  A thrown error — network failure or
`parseResponse`'s "Invalid response from Gemini" — is caught per batch:
the batch is tallied as failed and the loop continues.  The remote call is
modelled by an oracle from the batch number to either a `JsError` or the
JSON-parsed `analyses` array. -/

/-- A caught JavaScript error value, as push inspects it:
`error.message` and `error.code`. -/
structure JsError where
  message : String
  code : Option Nat
deriving DecidableEq, Repr

/-- The quota-exhaustion test used by `handlePushCommand`:
`error.message?.includes('quota') || error.code === 403`. -/
def isQuotaError (e : JsError) : Bool :=
  containsSub e.message "quota" || e.code = some 403

/-- The `--type` values: `mood | genre | energy | all`. -/
inductive AnalysisType where
  | mood
  | genre
  | energy
  | all
deriving DecidableEq, Repr

/-- One entry of the JSON-parsed `analyses` array of a Gemini response:
a 1-based positional index plus optional per-dimension assignments. -/
structure RawAnalysis where
  song_id : Int
  mood : Option (List String)
  genre : Option (List String)
  energy : Option String
deriving DecidableEq, Repr

/-- The `SongAnalysis` record of `src/services/gemini.ts`, with the
positional index replaced by the song's own id. -/
structure SongAnalysis where
  song_id : String
  mood : Option (List String)
  genre : Option (List String)
  energy : Option String
deriving DecidableEq, Repr

/-- Embeds `GeminiService.parseResponse` — for each entry of the response the
0-based index `song_id - 1` is computed; out-of-range entries are
discarded; in-range ones are mapped to the indexed song of the batch. -/
def parseResponse (songs : List Song) (raws : List RawAnalysis) : List SongAnalysis :=
  raws.filterMap (fun r =>
    let songIndex : Int := r.song_id - 1
    if 0 ≤ songIndex then
      (songs[songIndex.toNat]?).map (fun song =>
        { song_id := song.id, mood := r.mood, genre := r.genre, energy := r.energy })
    else none)

/-- The per-analysis body of the save loop of `handleAnalyzeCommand`:
insert one `Category` row per assigned value per requested type, with
confidence `1.0`, then `markSongAsProcessed`. -/
def saveAnalysis (atype : AnalysisType) (db : DB) (a : SongAnalysis) : DB :=
  let db1 :=
    if atype = .mood ∨ atype = .all then
      match a.mood with
      | some ms => ms.foldl (fun d m => d.insertCategory ⟨a.song_id, "mood", m, 1⟩) db
      | none => db
    else db
  let db2 :=
    if atype = .genre ∨ atype = .all then
      match a.genre with
      | some gs => gs.foldl (fun d g => d.insertCategory ⟨a.song_id, "genre", g, 1⟩) db1
      | none => db1
    else db1
  let db3 :=
    if atype = .energy ∨ atype = .all then
      match a.energy with
      | some e => db2.insertCategory ⟨a.song_id, "energy", e, 1⟩
      | none => db2
    else db2
  db3.markSongAsProcessed a.song_id

/-- The save loop over one successfully parsed batch. -/
def saveBatch (atype : AnalysisType) (db : DB) (analyses : List SongAnalysis) : DB :=
  analyses.foldl (saveAnalysis atype) db

/-- The constant `BATCH_SIZE = 15`. -/
def BATCH_SIZE : Nat := 15

/-- The batching of the analyze loop: `slice(i, i + n)` for
`i = 0, n, 2n, …`.  (The `max 1` guards termination; the loop only runs
with `n = BATCH_SIZE = 15`, where `max 1 n = n`.) -/
def chunkList (n : Nat) : List α → List (List α)
  | [] => []
  | x :: xs => ((x :: xs).take n) :: chunkList n ((x :: xs).drop (max 1 n))
termination_by l => l.length
decreasing_by
  simp only [List.length_drop, List.length_cons]
  omega

/-- The running state of `handleAnalyzeCommand`: the store plus the
`processed` and `failed` tallies, plus (for the proofs) the list of batch
numbers submitted to the AI service, in submission order. -/
structure AnalyzeState where
  db : DB
  processed : Nat
  failed : Nat
  submitted : List Nat
deriving DecidableEq, Repr

/-- The batch loop of `handleAnalyzeCommand`: every iteration submits its
batch to the oracle; on success the parsed analyses are saved and tallied
as processed; on a thrown error the batch's size is tallied as failed and
the loop continues with the next batch. -/
def runBatches (oracle : Nat → Except JsError (List RawAnalysis)) (atype : AnalysisType) :
    List (Nat × List Song) → AnalyzeState → AnalyzeState
  | [], st => st
  | (i, batch) :: rest, st =>
    let st1 : AnalyzeState := { st with submitted := st.submitted ++ [i] }
    match oracle i with
    | .ok raws =>
      let analyses := parseResponse batch raws
      runBatches oracle atype rest
        { st1 with
          db := saveBatch atype st1.db analyses,
          processed := st1.processed + analyses.length }
    | .error _ =>
      runBatches oracle atype rest { st1 with failed := st1.failed + batch.length }

/-- Embeds `getAllSongs().filter(s => !s.ai_processed)`. -/
def unprocessedOf (db : DB) : List Song :=
  db.songs.filter (fun s => !s.ai_processed)

/-- Embeds `handleAnalyzeCommand` — batch the unprocessed songs and run the loop. -/
def handleAnalyzeCommand (db : DB) (oracle : Nat → Except JsError (List RawAnalysis))
    (atype : AnalysisType) : AnalyzeState :=
  runBatches oracle atype (chunkList BATCH_SIZE (unprocessedOf db)).enum
    { db := db, processed := 0, failed := 0, submitted := [] }

/-- The song ids returned (after index validation) by the successful
batches of a run: exactly the ids `handleAnalyzeCommand` marks processed. -/
def okParsedIds (oracle : Nat → Except JsError (List RawAnalysis))
    (batches : List (Nat × List Song)) : List String :=
  (batches.filterMap (fun ib =>
    match oracle ib.1 with
    | .ok raws => some ((parseResponse ib.2 raws).map (fun a => a.song_id))
    | .error _ => none)).flatten

/-- Pointwise flag update: set `ai_processed` on the rows whose id lies in
`ids`, leave every other row and every other field unchanged. -/
def markMany (ids : List String) (songs : List Song) : List Song :=
  songs.map (fun s => if s.id ∈ ids then { s with ai_processed := true } else s)

/-- The total `failed` tally of a run: the summed sizes of the batches
whose AI call threw. -/
def failedTally (oracle : Nat → Except JsError (List RawAnalysis))
    (batches : List (Nat × List Song)) : Nat :=
  (batches.filterMap (fun ib =>
    match oracle ib.1 with
    | .ok _ => none
    | .error _ => some ib.2.length)).sum

/-! ## Playlist synthesis (`src/cli/create.ts`)

`handleCreateCommand` reads the processed songs with their categories,
asks the suggestion service for named filters, and for each suggestion
computes the matching songs; only a non-empty match set leads to a
playlist write (update-and-rebuild when a playlist of that name exists,
insert otherwise). -/

/-- The `SongWithCategories` record built at the top of
`handleCreateCommand`: per-song mood values, genre values, and the value
of the first energy row (with `?.value || null` turning an empty string
into null). -/
structure SongWithCats where
  id : String
  moods : List String
  genres : List String
  energy : Option String
deriving DecidableEq, Repr

/-- Build one `SongWithCategories` from the store. -/
def songWithCats (db : DB) (s : Song) : SongWithCats :=
  let cats := db.getCategoriesBySongId s.id
  { id := s.id,
    moods := (cats.filter (fun c => c.ctype = "mood")).map (fun c => c.value),
    genres := (cats.filter (fun c => c.ctype = "genre")).map (fun c => c.value),
    energy :=
      match cats.find? (fun c => c.ctype = "energy") with
      | some c => if c.value = "" then none else some c.value
      | none => none }

/-- A suggestion's filter predicate: per-dimension optional value sets. -/
structure Filters where
  mood : Option (List String)
  genre : Option (List String)
  energy : Option (List String)
deriving DecidableEq, Repr

/-- One playlist suggestion returned by the AI suggestion service. -/
structure Suggestion where
  name : String
  description : String
  filters : Filters
deriving DecidableEq, Repr

/-- The match predicate of `handleCreateCommand`: each dimension matches
when its filter is absent, or when some filter value occurs among the
song's values for that dimension (for energy: when the song's single
energy value is in the filter set). -/
def songMatches (song : SongWithCats) (f : Filters) : Bool :=
  let moodMatch :=
    match f.mood with
    | none => true
    | some ms => ms.any (fun m => song.moods.contains m)
  let genreMatch :=
    match f.genre with
    | none => true
    | some gs => gs.any (fun g => song.genres.contains g)
  let energyMatch :=
    match f.energy with
    | none => true
    | some es =>
      match song.energy with
      | some e => es.contains e
      | none => false
  moodMatch && genreMatch && energyMatch

/-- Embeds `suggestion.name.toLowerCase().replace(/\s+/g, '_')`: each maximal
whitespace run becomes a single underscore. -/
def wsRunsToUnderscore : List Char → List Char
  | [] => []
  | c :: rest =>
    if isWsChar c then '_' :: wsRunsToUnderscore (rest.dropWhile isWsChar)
    else c :: wsRunsToUnderscore rest
termination_by l => l.length
decreasing_by
  · simp only [List.length_cons]
    exact Nat.lt_succ_of_le (List.dropWhile_suffix isWsChar).sublist.length_le
  · simp

/-- The `category_value` seed stored with a fresh playlist. -/
def categoryValueOf (name : String) : String :=
  String.mk (wsRunsToUnderscore (jsLowerList name.data))

/-- The per-suggestion body of the create loop.  `songsWithCats` is the
snapshot computed before the loop; `freshId` models the generated
`pl_${Date.now()}_${random}` identifier.  When no song matches, the store
is left untouched (the source only logs "No matching songs"). -/
def processSuggestion (songsWithCats : List SongWithCats) (db : DB) (sug : Suggestion)
    (freshId : String) : DB :=
  let matchingSongs := songsWithCats.filter (fun s => songMatches s sug.filters)
  if matchingSongs.length > 0 then
    match db.getPlaylistByName sug.name with
    | some existing =>
      matchingSongs.foldl (fun d s => d.addSongToPlaylist existing.id s.id)
        (db.clearPlaylistSongs existing.id)
    | none =>
      matchingSongs.foldl (fun d s => d.addSongToPlaylist freshId s.id)
        (db.insertPlaylist
          { id := freshId, name := sug.name, youtube_playlist_id := none,
            category_type := "ai_group", category_value := categoryValueOf sug.name })
  else db

/-- Embeds `handleCreateCommand` after a successful suggestion call: the
processed-song snapshot is computed once, then the suggestions are
processed in order; `freshIds k` is the identifier generated for the
`k`-th suggestion. -/
def createPlaylists (db : DB) (sugs : List Suggestion) (freshIds : Nat → String) : DB :=
  let snapshot := (db.songs.filter (fun s => s.ai_processed)).map (songWithCats db)
  (sugs.enum).foldl (fun d ks => processSuggestion snapshot d ks.2 (freshIds ks.1)) db

/-! ## Publishing (`src/cli/push.ts`)

`handlePushCommand` walks the playlist snapshot; a playlist with no songs
or with a remote id is skipped without any remote call; otherwise the
remote playlist is created, the obtained id persisted, and the members
added one by one.  Quota exhaustion (during create or during an add)
terminates the whole command; a non-quota add failure is tallied and the
loop continues with the next member.  Remote calls are recorded in an
event trace; `persistRemoteId` marks the store write of the obtained
remote id. -/

/-- Chronological events of a push run.  `localPid` tags which local
playlist row triggered the remote call. -/
inductive PushEvent where
  | remoteCreate (localPid : String) (name : String)
  | persistRemoteId (localPid : String) (ypid : String)
  | remoteAdd (ypid : String) (videoId : String)
deriving DecidableEq, Repr

/-- The member-add loop of one playlist: one `playlistItems.insert` per
song; a non-quota failure increments the failed tally and continues; a
quota failure stops the run (`aborted = true`). -/
def pushAddLoop (ao : String → String → Except JsError Unit) (ypid : String) :
    List Song → List PushEvent × Nat × Nat × Bool
  | [] => ([], 0, 0, false)
  | song :: rest =>
    match ao ypid song.id with
    | .ok _ =>
      let r := pushAddLoop ao ypid rest
      (.remoteAdd ypid song.id :: r.1, r.2.1 + 1, r.2.2.1, r.2.2.2)
    | .error e =>
      if isQuotaError e then ([.remoteAdd ypid song.id], 0, 1, true)
      else
        let r := pushAddLoop ao ypid rest
        (.remoteAdd ypid song.id :: r.1, r.2.1, r.2.2.1 + 1, r.2.2.2)

/-- The outcome of handling one playlist of the snapshot. -/
structure PushStep where
  db : DB
  events : List PushEvent
  added : Nat
  failed : Nat
  aborted : Bool
deriving DecidableEq, Repr

/-- The per-playlist body of the push loop.  An empty playlist or one that
already carries a remote id is skipped with no remote call.  Otherwise the
create call runs; on success the remote id is persisted to the store
before the member-add loop starts; a failed create aborts the command only
when it is a quota error (otherwise the outer catch logs and the loop
continues). -/
def pushPlaylist (co : String → Except JsError String)
    (ao : String → String → Except JsError Unit) (db : DB) (p : Playlist) : PushStep :=
  let songs := db.getPlaylistSongs p.id
  if songs.length = 0 then
    { db := db, events := [], added := 0, failed := 0, aborted := false }
  else
    match p.youtube_playlist_id with
    | some _ =>
      { db := db, events := [], added := 0, failed := 0, aborted := false }
    | none =>
      match co p.name with
      | .error e =>
        { db := db, events := [.remoteCreate p.id p.name], added := 0, failed := 0,
          aborted := isQuotaError e }
      | .ok ypid =>
        let db1 := db.updatePlaylistYouTubeId p.id ypid
        let r := pushAddLoop ao ypid songs
        { db := db1,
          events := .remoteCreate p.id p.name :: .persistRemoteId p.id ypid :: r.1,
          added := r.2.1, failed := r.2.2.1, aborted := r.2.2.2 }

/-- The playlist loop of `handlePushCommand`: once a step aborts, no later
playlist is processed. -/
def pushLoop (co : String → Except JsError String)
    (ao : String → String → Except JsError Unit) :
    List Playlist → DB → DB × List PushEvent
  | [], db => (db, [])
  | p :: rest, db =>
    let st := pushPlaylist co ao db p
    if st.aborted then (st.db, st.events)
    else
      let r := pushLoop co ao rest st.db
      (r.1, st.events ++ r.2)

/-- Embeds `handlePushCommand` over the `getAllPlaylists()` snapshot. -/
def pushRun (co : String → Except JsError String)
    (ao : String → String → Except JsError Unit) (db : DB) : DB × List PushEvent :=
  pushLoop co ao db.playlists db

/-! ## The interactive dispatcher (`src/index.ts`) and `sources add`

`handleCommand` preprocesses every line with
`input.trim().toLowerCase().replace(/^\//, '')` and then splits on `\s+`;
the `sources` command hands the remaining parts to
`handleSourcesCommand`, whose `add` branch re-joins them with single
spaces, extracts the `list=` identifier, checks `getSourceByYoutubeId`
and inserts a new source. -/

/-- Embeds `replace(/^\//, '')` — drop one leading slash if present. -/
def stripLeadSlash (cs : List Char) : List Char :=
  match cs with
  | '/' :: rest => rest
  | _ => cs

/-- Embeds `split(/\s+/)` on a non-empty string: emit the text before the next
whitespace run, skip the run, recurse; a trailing run yields a final empty
piece (via the `[]` case). -/
def jsSplitWsGo (cs : List Char) : List (List Char) :=
  match h : cs.dropWhile (fun c => !isWsChar c) with
  | [] => [cs.takeWhile (fun c => !isWsChar c)]
  | _ :: t => cs.takeWhile (fun c => !isWsChar c) :: jsSplitWsGo (t.dropWhile isWsChar)
termination_by cs.length
decreasing_by
  have h1 := (List.dropWhile_suffix (l := cs) (fun c => !isWsChar c)).sublist.length_le
  rw [h] at h1
  have h2 := (List.dropWhile_suffix (l := t) isWsChar).sublist.length_le
  simp only [List.length_cons] at h1
  omega

/-- Embeds `s.split(/\s+/)` — on the empty string JavaScript yields `[""]`. -/
def jsSplitWs (cs : List Char) : List (List Char) :=
  match cs with
  | [] => [[]]
  | _ :: _ => jsSplitWsGo cs

/-- The preprocessing of `handleCommand`:
`input.trim().toLowerCase().replace(/^\//, '').split(/\s+/)`. -/
def preprocess (input : List Char) : List (List Char) :=
  jsSplitWs (stripLeadSlash (jsLowerList (jsTrimList input)))

/-- The scan of `url.match(/[?&]list=([^&]+)/)`: at each position, a `?`
or `&` followed by `list=` and at least one non-`&` character yields the
maximal non-`&` capture; otherwise the scan advances one character. -/
def extractPlaylistIdGo : List Char → Option (List Char)
  | [] => none
  | c :: rest =>
    if (c = '?' ∨ c = '&') ∧ startsWithList rest "list=".data then
      match (rest.drop 5).takeWhile (fun x => x ≠ '&') with
      | [] => extractPlaylistIdGo rest
      | cap => some cap
    else extractPlaylistIdGo rest

/-- Embeds `extractPlaylistId` of `src/cli/sources.ts`. -/
def extractPlaylistId (url : List Char) : Option (List Char) :=
  extractPlaylistIdGo url

/-- The `add` branch of `handleSourcesCommand`: join the argument parts
with single spaces (`rest.join(' ')`), trim, extract the playlist id,
refuse when a source with that `youtube_id` exists, insert otherwise. -/
def handleSourcesAdd (db : DB) (freshId : Nat) (rest : List (List Char)) : DB :=
  let input := jsTrimList (List.intercalate [' '] rest)
  if input = [] then db
  else
    match extractPlaylistId input with
    | none => db
    | some pid =>
      let pidS := String.mk pid
      match db.getSourceByYoutubeId pidS with
      | some _ => db
      | none =>
        db.insertSource freshId .playlist
          ("Playlist " ++ String.mk (pid.take 8) ++ "...") (some pidS)

/-- The dispatcher restricted to the `sources add` path: commands other
than `sources add …` leave the store unchanged in this model (none of
them is the subject of the dispatcher claim). -/
def dispatchSourcesAdd (db : DB) (freshId : Nat) (input : List Char) : DB :=
  match preprocess input with
  | cmd :: sub :: rest =>
    if cmd = "sources".data ∧ sub = "add".data then handleSourcesAdd db freshId rest
    else db
  | _ => db

/-- Whether `cs` is unchanged by lowercasing (no uppercase ASCII characters). -/
def allLowered (cs : List Char) : Bool :=
  cs.all (fun c => jsLowerChar c = c)

/-! ## Concrete fixtures

Small concrete stores, upstream data and oracles used to instantiate the
universally quantified theorems below on executable inputs. -/

/-- A tracked playlist source that has never been synced. -/
def wSource : Source :=
  { id := 1, type := .playlist, name := "P", youtube_id := some "y", last_synced := none }

/-- A store holding only `wSource`. -/
def wSyncDB : DB :=
  { sources := [wSource], songs := [], categories := [], playlists := [],
    playlist_songs := [] }

/-- One upstream music video. -/
def wUp : List RawVideo :=
  [{ id := "v1", title := "A - B", channelTitle := "C" }]

/-- One upstream non-music video (matches the `podcast` pattern). -/
def wUpPodcast : List RawVideo :=
  [{ id := "v1", title := "Podcast Episode", channelTitle := "Chan" }]

/-- The store `wSyncDB` after a first sync of `wUp` at time 5. -/
def wSyncDB1 : DB :=
  { sources := [{ wSource with last_synced := some 5 }],
    songs := [{ id := "v1", title := "B", artist := some "A", source_id := some 1,
                ai_processed := false }],
    categories := [], playlists := [], playlist_songs := [] }

/-- The store `wSyncDB1` after a second sync of `wUp` at time 9. -/
def wSyncDB2 : DB :=
  { wSyncDB1 with sources := [{ wSource with last_synced := some 9 }] }

/-- An unprocessed song row. -/
def wSong (n : Nat) : Song :=
  { id := "s" ++ toString n, title := "T" ++ toString n, artist := some "Ar",
    source_id := some 1, ai_processed := false }

/-- Sixteen unprocessed songs: two analyze batches. -/
def wSongs16 : List Song :=
  (List.range 16).map wSong

/-- A store with sixteen unprocessed songs: two analyze batches. -/
def wAnalyzeDB16 : DB :=
  { sources := [], songs := wSongs16, categories := [],
    playlists := [], playlist_songs := [] }

/-- A store with two unprocessed songs: one analyze batch. -/
def wAnalyzeDB2 : DB :=
  { sources := [], songs := [wSong 0, wSong 1], categories := [],
    playlists := [], playlist_songs := [] }

/-- Oracle for the C1 counterexample: batch 0 fails with a quota error,
every later batch succeeds with an empty analyses array. -/
def wQuotaOracle : Nat → Except JsError (List RawAnalysis)
  | 0 => .error { message := "quota exceeded", code := some 403 }
  | _ => .ok []

/-- Oracle for the C2 counterexample: the only batch succeeds but its
response carries an entry for index 1 only (and none for index 2). -/
def wPartialOracle : Nat → Except JsError (List RawAnalysis)
  | _ => .ok [{ song_id := 1, mood := some ["happy"], genre := none, energy := none }]

/-- A processed song row. -/
def wProcSong : Song :=
  { id := "s1", title := "T1", artist := some "Ar", source_id := some 1,
    ai_processed := true }

/-- A store with one processed song carrying one mood category, for the
create fixtures. -/
def wCreateDB : DB :=
  { sources := [], songs := [wProcSong],
    categories := [{ song_id := "s1", ctype := "mood", value := "happy", confidence := 1 }],
    playlists := [], playlist_songs := [] }

/-- A suggestion whose filter matches nothing in `wCreateDB`. -/
def wEmptySuggestion : Suggestion :=
  { name := "Empty", description := "d",
    filters := { mood := some ["sad"], genre := none, energy := none } }

/-- A suggestion whose filter matches the song of `wCreateDB`. -/
def wHappySuggestion : Suggestion :=
  { name := "Happy", description := "d",
    filters := { mood := some ["happy"], genre := none, energy := none } }

/-- A local playlist not yet pushed, with one member. -/
def wLocalPlaylist : Playlist :=
  { id := "pl1", name := "Mix", youtube_playlist_id := none,
    category_type := "ai_group", category_value := "mix" }

/-- A local playlist already pushed. -/
def wPushedPlaylist : Playlist :=
  { id := "pl2", name := "Old", youtube_playlist_id := some "YT2",
    category_type := "ai_group", category_value := "old" }

/-- A store with one pushable and one already-pushed playlist, both with
one member. -/
def wPushDB : DB :=
  { sources := [],
    songs := [{ id := "s1", title := "T1", artist := some "Ar", source_id := some 1,
                ai_processed := true }],
    categories := [], playlists := [wLocalPlaylist, wPushedPlaylist],
    playlist_songs := [⟨"pl1", "s1"⟩, ⟨"pl2", "s1"⟩] }

/-- A create-playlist oracle that always succeeds with remote id `YT1`. -/
def wCreateOracle : String → Except JsError String :=
  fun _ => .ok "YT1"

/-- An add-item oracle that always succeeds. -/
def wAddOracle : String → String → Except JsError Unit :=
  fun _ _ => .ok ()

/-! ## General lemmas -/

theorem startsWithList_append_self (a b : List Char) :
    startsWithList (a ++ b) a = true := by
  induction a with
  | nil => cases b <;> rfl
  | cons c cs ih => simp [startsWithList, ih]

theorem endsWithList_append_self (a b : List Char) :
    endsWithList (a ++ b) b = true := by
  unfold endsWithList
  rw [List.reverse_append]
  exact startsWithList_append_self b.reverse a.reverse

/-! ## C8 — reset scope -/

/-- C8: After `resetData` (the `reset` command), the songs, categories,
playlists and playlist-membership relations are all empty, and the sources
relation is exactly the old one with each row's `last_synced` set to `none`
and every other field (`id`, `type`, `name`, `youtube_id`) untouched. -/
theorem resetData_scope (db : DB) :
    (db.resetData).songs = [] ∧
    (db.resetData).categories = [] ∧
    (db.resetData).playlists = [] ∧
    (db.resetData).playlist_songs = [] ∧
    (db.resetData).sources =
      db.sources.map (fun s =>
        { id := s.id, type := s.type, name := s.name, youtube_id := s.youtube_id,
          last_synced := none }) := by
  refine ⟨rfl, rfl, rfl, rfl, ?_⟩
  simp [DB.resetData]

/-! ## C9 — artist extraction -/

theorem trySeps_eq_find (title : String) (seps : List String) :
    trySeps title seps =
      match seps.find? (sepMatches title) with
      | some sep =>
        some (cleanArtistName (jsTrimStr ((jsSplitOn title sep).headD "")),
              jsTrimStr (joinWith sep (jsSplitOn title sep).tail))
      | none => none := by
  induction seps with
  | nil => rfl
  | cons sep rest ih =>
    simp only [trySeps, List.find?_cons]
    by_cases hc : containsSub title sep = true
    · rw [if_pos hc]
      cases hs : jsSplitOn title sep with
      | nil =>
        have hm : sepMatches title sep = false := by simp [sepMatches, hs]
        simp only [hm, ih]
      | cons p0 ptail =>
        cases ptail with
        | nil =>
          have hm : sepMatches title sep = false := by simp [sepMatches, hs]
          simp only [hm, ih]
        | cons p1 ps =>
          by_cases hp : p0 = ""
          · have hm : sepMatches title sep = false := by simp [sepMatches, hs, hp, hc]
            simp only [hm, hp, ih]
            simp
          · have hm : sepMatches title sep = true := by simp [sepMatches, hs, hp, hc]
            simp only [hm, hs, hp, if_true]
            simp [hp]

    · have hc' : containsSub title sep = false := by simpa using hc
      have hm : sepMatches title sep = false := by simp [sepMatches, hc']
      rw [if_neg (by simp [hc'])]
      simp only [hm, ih]

/-- C9: `extractArtistFromTitle` scans the separator list in its priority
order (dashes, colon, pipe); the first separator occurring in the title
with a non-empty part before its first occurrence splits the title into
that part (the artist) and the re-joined rest (the new title); when no
separator qualifies, the publisher/channel fallback becomes the artist and
the title is left whole; both resulting artists pass through
`cleanArtistName`, which strips a case-insensitive trailing `" - Topic"`,
as the second conjunct states for an arbitrary prefix. -/
theorem extractArtist_spec (title fallback : String) :
    (extractArtistFromTitle title fallback =
      match separators.find? (sepMatches title) with
      | some sep =>
        (cleanArtistName (jsTrimStr ((jsSplitOn title sep).headD "")),
         jsTrimStr (joinWith sep (jsSplitOn title sep).tail))
      | none => (cleanArtistName fallback, title)) ∧
    (∀ cs : List Char,
      cleanArtistName (String.mk (cs ++ " - Topic".data)) = jsTrimStr (String.mk cs)) := by
  constructor
  · unfold extractArtistFromTitle
    rw [trySeps_eq_find]
    cases separators.find? (sepMatches title) <;> simp
  · intro cs
    unfold cleanArtistName
    have hlow : jsLowerList (String.mk (cs ++ " - Topic".data)).data =
        jsLowerList cs ++ " - topic".data := by
      show jsLowerList (cs ++ " - Topic".data) = jsLowerList cs ++ " - topic".data
      unfold jsLowerList
      rw [List.map_append,
        show List.map jsLowerChar " - Topic".data = " - topic".data from by decide]
    rw [hlow, endsWithList_append_self]
    simp only [if_true]
    congr 1
    show String.mk ((cs ++ " - Topic".data).take ((cs ++ " - Topic".data).length - 8)) =
      String.mk cs
    congr 1
    rw [List.length_append]
    have h8 : (" - Topic".data).length = 8 := by decide
    rw [h8]
    simp only [Nat.add_sub_cancel]
    exact List.take_left cs (" - Topic".data)

/-! ## Ingestion-idempotence lemmas (`INSERT OR IGNORE` semantics) -/

theorem insertSongRow_any_mono (songs : List Song) (t : Song) (x : String)
    (h : songs.any (fun r => r.id = x) = true) :
    (DB.insertSongRow songs t).any (fun r => r.id = x) = true := by
  unfold DB.insertSongRow
  split
  · exact h
  · simp only [List.any_append, h, Bool.true_or]

theorem insertSongRow_any_self (songs : List Song) (t : Song) :
    (DB.insertSongRow songs t).any (fun r => r.id = t.id) = true := by
  unfold DB.insertSongRow
  split
  · assumption
  · simp [List.any_append]

theorem insertSongRow_of_present (songs : List Song) (t : Song)
    (h : songs.any (fun r => r.id = t.id) = true) :
    DB.insertSongRow songs t = songs := by
  unfold DB.insertSongRow
  rw [if_pos h]

theorem foldl_insertSongRow_any_mono (batch : List Song) (songs : List Song) (x : String)
    (h : songs.any (fun r => r.id = x) = true) :
    (batch.foldl DB.insertSongRow songs).any (fun r => r.id = x) = true := by
  induction batch generalizing songs with
  | nil => exact h
  | cons t rest ih =>
    exact ih (DB.insertSongRow songs t) (insertSongRow_any_mono songs t x h)

theorem foldl_insertSongRow_any_self (batch : List Song) (songs : List Song) (t : Song)
    (ht : t ∈ batch) :
    (batch.foldl DB.insertSongRow songs).any (fun r => r.id = t.id) = true := by
  induction batch generalizing songs with
  | nil => cases ht
  | cons u rest ih =>
    rcases List.mem_cons.mp ht with h | h
    · subst h
      exact foldl_insertSongRow_any_mono rest (DB.insertSongRow songs t) t.id
        (insertSongRow_any_self songs t)
    · exact ih (DB.insertSongRow songs u) h

theorem foldl_insertSongRow_idem (batch : List Song) (songs : List Song)
    (h : ∀ t ∈ batch, songs.any (fun r => r.id = t.id) = true) :
    batch.foldl DB.insertSongRow songs = songs := by
  induction batch with
  | nil => rfl
  | cons t rest ih =>
    have h0 : DB.insertSongRow songs t = songs :=
      insertSongRow_of_present songs t (h t (List.mem_cons_self t rest))
    simp only [List.foldl_cons, h0]
    exact ih (fun u hu => h u (List.mem_cons_of_mem t hu))

theorem insertSongs_idem (db : DB) (batch : List Song) :
    ((db.insertSongs batch).insertSongs batch).songs = (db.insertSongs batch).songs := by
  show batch.foldl DB.insertSongRow (batch.foldl DB.insertSongRow db.songs) =
    batch.foldl DB.insertSongRow db.songs
  exact foldl_insertSongRow_idem batch _
    (fun t ht => foldl_insertSongRow_any_self batch db.songs t ht)

theorem getSourceById_updateSyncTime (db : DB) (i now sid : Nat) :
    (db.updateSourceSyncTime i now).getSourceById sid =
      (db.getSourceById sid).map
        (fun s => if s.id = i then { s with last_synced := some now } else s) := by
  unfold DB.getSourceById DB.updateSourceSyncTime
  simp only
  rw [List.find?_map]
  have hp : ((fun s : Source => decide (s.id = sid)) ∘ (fun s =>
      if s.id = i then { s with last_synced := some now } else s)) =
      (fun s : Source => decide (s.id = sid)) := by
    funext s
    by_cases h : s.id = i <;> simp [Function.comp, h]
  rw [hp]

/-! ## C6 — ingestion idempotence -/

/-- C6: Re-running `syncSource` on the same source with the same upstream
data leaves the songs relation exactly as after the first run — the
`INSERT OR IGNORE` keyed by the item identifier inserts nothing for an
already-present id, so no duplicate item rows are ever created and item
set and count agree with a single run. -/
theorem sync_idempotent (db db1 db2 : DB) (sid : Nat) (up : List RawVideo) (t1 t2 : Nat)
    (h1 : syncSource db sid up t1 = .ok db1)
    (h2 : syncSource db1 sid up t2 = .ok db2) :
    db2.songs = db1.songs ∧ db2.songs.length = db1.songs.length := by
  unfold syncSource at h1 h2
  cases hsrc : db.getSourceById sid with
  | none => rw [hsrc] at h1; cases h1
  | some s =>
    rw [hsrc] at h1
    by_cases hlen : (surviving sid up).length > 0
    · rw [if_pos hlen] at h1
      have hdb1 : db1 = (db.insertSongs (surviving sid up)).updateSourceSyncTime sid t1 := by
        cases h1; rfl
      have hsrc1 : db1.getSourceById sid =
          some (if s.id = sid then { s with last_synced := some t1 } else s) := by
        rw [hdb1]
        have hs : ((db.insertSongs (surviving sid up))).getSourceById sid = some s := hsrc
        rw [getSourceById_updateSyncTime, hs]
        rfl
      rw [hsrc1, if_pos hlen] at h2
      have hdb2 : db2 = (db1.insertSongs (surviving sid up)).updateSourceSyncTime sid t2 := by
        cases h2; rfl
      have hsongs : db2.songs = db1.songs := by
        rw [hdb2, hdb1]
        show (surviving sid up).foldl DB.insertSongRow
            ((surviving sid up).foldl DB.insertSongRow db.songs) =
          (surviving sid up).foldl DB.insertSongRow db.songs
        exact foldl_insertSongRow_idem _ _
          (fun t ht => foldl_insertSongRow_any_self _ _ t ht)
      exact ⟨hsongs, by rw [hsongs]⟩
    · rw [if_neg hlen] at h1
      have hdb1 : db1 = db := by cases h1; rfl
      rw [hdb1, hsrc, if_neg hlen] at h2
      have hdb2 : db2 = db := by cases h2; rfl
      rw [hdb2, hdb1]
      exact ⟨rfl, rfl⟩

/-- Witness for C6 at a concrete store, source and upstream batch. -/
theorem sync_idempotent_witness :
    wSyncDB2.songs = wSyncDB1.songs ∧ wSyncDB2.songs.length = wSyncDB1.songs.length :=
  sync_idempotent wSyncDB wSyncDB1 wSyncDB2 1 wUp 5 9 (by rfl) (by rfl)

/-! ## C7 — sync upsert-then-touch (corrected) -/

/-- C7 counterexample: a run of `syncSource` on an existing source that
completes without an upstream error but in which zero items survive the
non-music filter leaves the store untouched — in particular the source's
`last_synced` timestamp is not updated, contradicting the claim that the
timestamp update happens on every successful run including zero-survivor
ones. -/
theorem sync_zero_survivors_counterexample :
    syncSource wSyncDB 1 wUpPodcast 5 = .ok wSyncDB ∧
    wSyncDB.sources.map Source.last_synced = [none] ∧
    (surviving 1 wUpPodcast).length = 0 := by
  refine ⟨rfl, rfl, rfl⟩

/-- C7 (amended): on a successful `syncSource` run, when at least one item
survives the filtering the surviving items are upserted and then the
source's timestamp refreshed; when zero items survive, the store — songs
and timestamp alike — is left untouched. -/
theorem sync_upsert_then_touch (db db' : DB) (sid : Nat) (up : List RawVideo) (now : Nat)
    (h : syncSource db sid up now = .ok db') :
    (0 < (surviving sid up).length →
      db' = (db.insertSongs (surviving sid up)).updateSourceSyncTime sid now) ∧
    ((surviving sid up).length = 0 → db' = db) := by
  unfold syncSource at h
  cases hsrc : db.getSourceById sid with
  | none => rw [hsrc] at h; cases h
  | some s =>
    rw [hsrc] at h
    by_cases hlen : (surviving sid up).length > 0
    · rw [if_pos hlen] at h
      cases h
      exact ⟨fun _ => rfl, fun h0 => absurd h0 (by omega)⟩
    · rw [if_neg hlen] at h
      cases h
      exact ⟨fun hpos => absurd hpos hlen, fun _ => rfl⟩

/-- Witness for the amended C7 on a concrete one-survivor run. -/
theorem sync_upsert_then_touch_witness :
    (0 < (surviving 1 wUp).length →
      wSyncDB1 = (wSyncDB.insertSongs (surviving 1 wUp)).updateSourceSyncTime 1 5) ∧
    ((surviving 1 wUp).length = 0 → wSyncDB1 = wSyncDB) :=
  sync_upsert_then_touch wSyncDB wSyncDB1 1 wUp 5 (by rfl)

/-! ## Classification-run lemmas -/

theorem markMany_nil (l : List Song) : markMany [] l = l := by
  simp [markMany]

theorem markMany_append (ids1 ids2 : List String) (l : List Song) :
    markMany (ids1 ++ ids2) l = markMany ids2 (markMany ids1 l) := by
  unfold markMany
  rw [List.map_map]
  congr 1
  funext s
  by_cases h1 : s.id ∈ ids1 <;> by_cases h2 : s.id ∈ ids2 <;>
    simp [Function.comp, h1, h2, List.mem_append]

theorem insertCategory_songs (db : DB) (c : Category) :
    (db.insertCategory c).songs = db.songs := rfl

theorem foldl_insertCategory_songs (l : List α) (g : α → Category) (db : DB) :
    (l.foldl (fun d v => d.insertCategory (g v)) db).songs = db.songs := by
  induction l generalizing db with
  | nil => rfl
  | cons x xs ih => exact ih (db.insertCategory (g x))

theorem saveAnalysis_songs (atype : AnalysisType) (db : DB) (a : SongAnalysis) :
    (saveAnalysis atype db a).songs = markMany [a.song_id] db.songs := by
  rcases a with ⟨sid, mopt, gopt, eopt⟩
  have hmark : ∀ d : DB, (d.markSongAsProcessed sid).songs =
      markMany [sid] d.songs := by
    intro d
    unfold DB.markSongAsProcessed markMany
    simp
  cases atype <;> cases mopt <;> cases gopt <;> cases eopt <;>
    simp [saveAnalysis, hmark, foldl_insertCategory_songs, insertCategory_songs]

theorem saveBatch_songs (atype : AnalysisType) (db : DB) (analyses : List SongAnalysis) :
    (saveBatch atype db analyses).songs =
      markMany (analyses.map (fun a => a.song_id)) db.songs := by
  induction analyses generalizing db with
  | nil => rw [List.map_nil, markMany_nil]; rfl
  | cons a as ih =>
    show (saveBatch atype (saveAnalysis atype db a) as).songs = _
    rw [ih, saveAnalysis_songs]
    rw [show (a :: as).map (fun a => a.song_id) =
      [a.song_id] ++ as.map (fun a => a.song_id) from rfl]
    rw [markMany_append]

theorem runBatches_songs (oracle : Nat → Except JsError (List RawAnalysis))
    (atype : AnalysisType) (batches : List (Nat × List Song)) (st : AnalyzeState) :
    (runBatches oracle atype batches st).db.songs =
      markMany (okParsedIds oracle batches) st.db.songs := by
  induction batches generalizing st with
  | nil => rw [runBatches, okParsedIds]; simp [markMany_nil]
  | cons ib rest ih =>
    obtain ⟨i, batch⟩ := ib
    rw [runBatches]
    cases ho : oracle i with
    | ok raws =>
      rw [ih]
      have hok : okParsedIds oracle ((i, batch) :: rest) =
          (parseResponse batch raws).map (fun a => a.song_id) ++
            okParsedIds oracle rest := by
        unfold okParsedIds
        rw [List.filterMap_cons]
        simp only [ho]
        rw [List.flatten_cons]
      rw [hok, markMany_append]
      congr 1
      exact saveBatch_songs atype _ (parseResponse batch raws)
    | error e =>
      rw [ih]
      have herr : okParsedIds oracle ((i, batch) :: rest) = okParsedIds oracle rest := by
        unfold okParsedIds
        rw [List.filterMap_cons]
        simp only [ho]
      rw [herr]

theorem runBatches_submitted (oracle : Nat → Except JsError (List RawAnalysis))
    (atype : AnalysisType) (batches : List (Nat × List Song)) (st : AnalyzeState) :
    (runBatches oracle atype batches st).submitted =
      st.submitted ++ batches.map Prod.fst := by
  induction batches generalizing st with
  | nil => rw [runBatches]; simp
  | cons ib rest ih =>
    obtain ⟨i, batch⟩ := ib
    rw [runBatches]
    cases ho : oracle i <;> rw [ih] <;> simp

theorem runBatches_failed (oracle : Nat → Except JsError (List RawAnalysis))
    (atype : AnalysisType) (batches : List (Nat × List Song)) (st : AnalyzeState) :
    (runBatches oracle atype batches st).failed = st.failed + failedTally oracle batches := by
  induction batches generalizing st with
  | nil => rw [runBatches]; simp [failedTally]
  | cons ib rest ih =>
    obtain ⟨i, batch⟩ := ib
    rw [runBatches]
    cases ho : oracle i with
    | ok raws =>
      rw [ih]
      unfold failedTally
      rw [List.filterMap_cons]
      simp only [ho]
    | error e =>
      rw [ih]
      unfold failedTally
      rw [List.filterMap_cons]
      simp only [ho, List.sum_cons]
      omega

theorem parseResponse_ids_sub (b : List Song) (raws : List RawAnalysis)
    (a : SongAnalysis) (ha : a ∈ parseResponse b raws) :
    a.song_id ∈ b.map Song.id := by
  unfold parseResponse at ha
  obtain ⟨r, _, hr⟩ := List.mem_filterMap.mp ha
  by_cases h0 : (0 : Int) ≤ r.song_id - 1
  · rw [if_pos h0] at hr
    cases hb : b[(r.song_id - 1).toNat]? with
    | none => rw [hb] at hr; cases hr
    | some song =>
      rw [hb] at hr
      cases hr
      exact List.mem_map_of_mem Song.id (List.getElem?_mem hb)
  · rw [if_neg h0] at hr
    cases hr

theorem chunkList_flatten (n : Nat) (hn : 0 < n) (l : List α) :
    (chunkList n l).flatten = l := by
  have H : ∀ (k : Nat) (l : List α), l.length ≤ k → (chunkList n l).flatten = l := by
    intro k
    induction k with
    | zero =>
      intro l hl
      have : l = [] := List.eq_nil_of_length_eq_zero (by omega)
      subst this
      simp [chunkList]
    | succ k ih =>
      intro l hl
      cases l with
      | nil => simp [chunkList]
      | cons x xs =>
        have hmax : max 1 n = n := by omega
        rw [show chunkList n (x :: xs) =
            ((x :: xs).take n) :: chunkList n ((x :: xs).drop (max 1 n)) from by
          rw [chunkList]]
        rw [hmax, List.flatten_cons]
        have hd : ((x :: xs).drop n).length ≤ k := by
          rw [List.length_drop]
          simp only [List.length_cons] at hl ⊢
          omega
        rw [ih _ hd, List.take_append_drop]
  exact H l.length l le_rfl

theorem flatten_nodup_disjoint (L : List (List α)) (h : L.flatten.Nodup) :
    ∀ (i j : Nat) (bi bj : List α), L[i]? = some bi → L[j]? = some bj → i ≠ j →
      ∀ x, x ∈ bi → x ∉ bj := by
  induction L with
  | nil => intro i j bi bj hi; simp at hi
  | cons b t ih =>
    intro i j bi bj hi hj hij x hxi hxj
    rw [List.flatten_cons, List.nodup_append] at h
    obtain ⟨hb, ht, hdisj⟩ := h
    cases i with
    | zero =>
      cases j with
      | zero => exact hij rfl
      | succ j' =>
        simp only [List.getElem?_cons_zero, Option.some_inj] at hi
        simp only [List.getElem?_cons_succ] at hj
        subst hi
        exact hdisj hxi (List.mem_flatten.mpr ⟨bj, List.getElem?_mem hj, hxj⟩)
    | succ i' =>
      cases j with
      | zero =>
        simp only [List.getElem?_cons_zero, Option.some_inj] at hj
        simp only [List.getElem?_cons_succ] at hi
        subst hj
        exact hdisj hxj (List.mem_flatten.mpr ⟨bi, List.getElem?_mem hi, hxi⟩)
      | succ j' =>
        simp only [List.getElem?_cons_succ] at hi hj
        exact ih ht i' j' bi bj hi hj (fun hc => hij (by omega)) x hxi hxj

theorem chunkList_step (n : Nat) (l : List α) (hl : l ≠ []) (hn : 0 < n) :
    chunkList n l = l.take n :: chunkList n (l.drop n) := by
  cases l with
  | nil => exact absurd rfl hl
  | cons x xs =>
    rw [chunkList]
    have : max 1 n = n := by omega
    rw [this]

theorem chunkList_of_length_le (n : Nat) (l : List α) (h0 : l ≠ []) (h : l.length ≤ n) :
    chunkList n l = [l] := by
  cases l with
  | nil => exact absurd rfl h0
  | cons x xs =>
    rw [chunkList]
    have h1 : (x :: xs).take n = x :: xs := List.take_of_length_le h
    have h2 : (x :: xs).drop (max 1 n) = [] :=
      List.drop_eq_nil_of_le (le_trans h (by omega))
    rw [h1, h2]
    simp [chunkList]

theorem analyze_not_in_okIds (db : DB)
    (oracle : Nat → Except JsError (List RawAnalysis))
    (hnd : (db.songs.map Song.id).Nodup)
    (i : Nat) (batch : List Song)
    (hib : (i, batch) ∈ (chunkList BATCH_SIZE (unprocessedOf db)).enum)
    (s : Song) (hs : s ∈ batch)
    (hown : ∀ raws, oracle i = .ok raws →
      s.id ∉ (parseResponse batch raws).map (fun a => a.song_id)) :
    s.id ∉ okParsedIds oracle (chunkList BATCH_SIZE (unprocessedOf db)).enum := by
  intro hmem
  unfold okParsedIds at hmem
  obtain ⟨idl, hidl, hsid⟩ := List.mem_flatten.mp hmem
  obtain ⟨⟨j, bj⟩, hjb, hj⟩ := List.mem_filterMap.mp hidl
  cases ho : oracle j with
  | error e => rw [ho] at hj; cases hj
  | ok raws =>
    rw [ho] at hj
    simp only [Option.some_inj] at hj
    subst hj
    -- `s.id` is among the ids of batch `bj`
    have hsbj : s.id ∈ bj.map Song.id := by
      obtain ⟨a, ha, haid⟩ := List.mem_map.mp hsid
      rw [← haid]
      exact parseResponse_ids_sub bj raws a ha
    by_cases hji : j = i
    · subst hji
      have hbj : (chunkList BATCH_SIZE (unprocessedOf db))[j]? = some bj :=
        List.mk_mem_enum_iff_getElem?.mp hjb
      have hbatch : (chunkList BATCH_SIZE (unprocessedOf db))[j]? = some batch :=
        List.mk_mem_enum_iff_getElem?.mp hib
      rw [hbj] at hbatch
      cases hbatch
      exact hown raws ho hsid
    · -- distinct batches have disjoint id sets
      have hnup : ((chunkList BATCH_SIZE (unprocessedOf db)).map
          (fun b => b.map Song.id)).flatten.Nodup := by
        rw [← List.map_flatten, chunkList_flatten BATCH_SIZE (by decide)]
        exact ((List.filter_sublist db.songs).map Song.id).nodup hnd
      have hLi : ((chunkList BATCH_SIZE (unprocessedOf db)).map
          (fun b => b.map Song.id))[i]? = some (batch.map Song.id) := by
        rw [List.getElem?_map, List.mk_mem_enum_iff_getElem?.mp hib]
        rfl
      have hLj : ((chunkList BATCH_SIZE (unprocessedOf db)).map
          (fun b => b.map Song.id))[j]? = some (bj.map Song.id) := by
        rw [List.getElem?_map, List.mk_mem_enum_iff_getElem?.mp hjb]
        rfl
      exact flatten_nodup_disjoint _ hnup i j _ _ hLi hLj (fun h => hji h.symm)
        s.id (List.mem_map_of_mem Song.id hs) hsbj

theorem analyze_songs_eq (db : DB) (oracle : Nat → Except JsError (List RawAnalysis))
    (atype : AnalysisType) :
    (handleAnalyzeCommand db oracle atype).db.songs =
      markMany (okParsedIds oracle (chunkList BATCH_SIZE (unprocessedOf db)).enum)
        db.songs := by
  unfold handleAnalyzeCommand
  rw [runBatches_songs]

theorem analyze_row_marked (db : DB) (oracle : Nat → Except JsError (List RawAnalysis))
    (atype : AnalysisType) (x : String)
    (hx : x ∈ okParsedIds oracle (chunkList BATCH_SIZE (unprocessedOf db)).enum) :
    ∀ r ∈ (handleAnalyzeCommand db oracle atype).db.songs, r.id = x →
      r.ai_processed = true := by
  intro r hr hrx
  rw [analyze_songs_eq] at hr
  obtain ⟨r0, hr0, him⟩ := List.mem_map.mp hr
  by_cases h : r0.id ∈ okParsedIds oracle (chunkList BATCH_SIZE (unprocessedOf db)).enum
  · rw [if_pos h] at him
    rw [← him]
  · rw [if_neg h] at him
    subst him
    exact absurd (hrx ▸ hx) h

theorem analyze_row_unmarked (db : DB) (oracle : Nat → Except JsError (List RawAnalysis))
    (atype : AnalysisType) (hnd : (db.songs.map Song.id).Nodup)
    (s : Song) (hsmem : s ∈ unprocessedOf db)
    (hnot : s.id ∉ okParsedIds oracle (chunkList BATCH_SIZE (unprocessedOf db)).enum) :
    ∀ r ∈ (handleAnalyzeCommand db oracle atype).db.songs, r.id = s.id →
      r.ai_processed = false := by
  intro r hr hrs
  rw [analyze_songs_eq] at hr
  obtain ⟨r0, hr0, him⟩ := List.mem_map.mp hr
  have hid : r0.id = s.id := by
    by_cases h : r0.id ∈ okParsedIds oracle (chunkList BATCH_SIZE (unprocessedOf db)).enum
    · rw [if_pos h] at him; rw [← him] at hrs; exact hrs
    · rw [if_neg h] at him; rw [him]; exact hrs
  have hr0nin : r0.id ∉ okParsedIds oracle (chunkList BATCH_SIZE (unprocessedOf db)).enum :=
    hid ▸ hnot
  rw [if_neg hr0nin] at him
  -- `r` is the original row `r0`; by id-uniqueness it is `s` itself
  have hsdb : s ∈ db.songs := List.mem_of_mem_filter hsmem
  have hflag : s.ai_processed = false := by
    have := List.of_mem_filter hsmem
    simpa using this
  have hr0s : r0 = s := List.inj_on_of_nodup_map hnd hr0 hsdb (by rw [hid])
  rw [← him, hr0s]
  exact hflag

/-- The two concrete batches of `wAnalyzeDB16`. -/
theorem wAnalyzeDB16_chunks :
    chunkList BATCH_SIZE (unprocessedOf wAnalyzeDB16) =
      [wSongs16.take BATCH_SIZE, [wSong 15]] := by
  rw [show unprocessedOf wAnalyzeDB16 = wSongs16 from by decide,
    chunkList_step BATCH_SIZE wSongs16 (by decide) (by decide)]
  rw [show wSongs16.drop BATCH_SIZE = [wSong 15] from by decide]
  rw [chunkList_of_length_le BATCH_SIZE [wSong 15] (by decide) (by decide)]

/-- The single concrete batch of `wAnalyzeDB2`. -/
theorem wAnalyzeDB2_chunks :
    chunkList BATCH_SIZE (unprocessedOf wAnalyzeDB2) = [[wSong 0, wSong 1]] := by
  rw [show unprocessedOf wAnalyzeDB2 = [wSong 0, wSong 1] from by decide]
  exact chunkList_of_length_le _ _ (by decide) (by decide)

/-! ## C1 — quota failures and the batch loop (corrected) -/

/-- C1 counterexample: with sixteen unprocessed songs (two batches) and an
oracle that fails batch 0 with a quota-exhaustion error (`code = 403`,
message containing `quota`), the analyze command still submits batch 1
afterwards (`submitted = [0, 1]`) — the command does not abort on quota
exhaustion, contradicting the claim that no batch after the failing one is
submitted. -/
theorem analyze_quota_continues_counterexample :
    isQuotaError { message := "quota exceeded", code := some 403 } = true ∧
    wQuotaOracle 0 = .error { message := "quota exceeded", code := some 403 } ∧
    (handleAnalyzeCommand wAnalyzeDB16 wQuotaOracle .all).submitted = [0, 1] ∧
    (handleAnalyzeCommand wAnalyzeDB16 wQuotaOracle .all).failed = 15 := by
  refine ⟨by decide, rfl, ?_, ?_⟩ <;>
    (unfold handleAnalyzeCommand; rw [wAnalyzeDB16_chunks]; decide)

/-- C1 (amended): a failed AI call for a batch — quota-exhaustion or any
other error — does not abort `classify`: every batch, including every
batch after a failing one, is submitted to the AI service in order; the
failed tally sums the failing batches' sizes; and the failing batch's
items are left unclassified. -/
theorem analyze_continues_after_failure (db : DB)
    (oracle : Nat → Except JsError (List RawAnalysis)) (atype : AnalysisType)
    (hnd : (db.songs.map Song.id).Nodup) :
    (handleAnalyzeCommand db oracle atype).submitted =
      List.range (chunkList BATCH_SIZE (unprocessedOf db)).length ∧
    (handleAnalyzeCommand db oracle atype).failed =
      failedTally oracle (chunkList BATCH_SIZE (unprocessedOf db)).enum ∧
    (∀ (i : Nat) (batch : List Song),
      (i, batch) ∈ (chunkList BATCH_SIZE (unprocessedOf db)).enum →
      ∀ e, oracle i = .error e →
      ∀ s ∈ batch, ∀ r ∈ (handleAnalyzeCommand db oracle atype).db.songs,
        r.id = s.id → r.ai_processed = false) := by
  refine ⟨?_, ?_, ?_⟩
  · unfold handleAnalyzeCommand
    rw [runBatches_submitted]
    simp [List.enum_map_fst]
  · unfold handleAnalyzeCommand
    rw [runBatches_failed]
    simp
  · intro i batch hib e hoe s hs r hr hrid
    have hsmem : s ∈ unprocessedOf db := by
      rw [← chunkList_flatten BATCH_SIZE (by decide) (unprocessedOf db)]
      exact List.mem_flatten.mpr
        ⟨batch, List.getElem?_mem (List.mk_mem_enum_iff_getElem?.mp hib), hs⟩
    have hnot : s.id ∉ okParsedIds oracle (chunkList BATCH_SIZE (unprocessedOf db)).enum :=
      analyze_not_in_okIds db oracle hnd i batch hib s hs
        (fun raws hok => by rw [hoe] at hok; cases hok)
    exact analyze_row_unmarked db oracle atype hnd s hsmem hnot r hr hrid

/-- Witness for the amended C1 at the concrete two-batch store and
quota-failing oracle. -/
theorem analyze_continues_after_failure_witness :
    (handleAnalyzeCommand wAnalyzeDB16 wQuotaOracle .all).submitted =
      List.range (chunkList BATCH_SIZE (unprocessedOf wAnalyzeDB16)).length ∧
    (handleAnalyzeCommand wAnalyzeDB16 wQuotaOracle .all).failed =
      failedTally wQuotaOracle (chunkList BATCH_SIZE (unprocessedOf wAnalyzeDB16)).enum ∧
    (∀ (i : Nat) (batch : List Song),
      (i, batch) ∈ (chunkList BATCH_SIZE (unprocessedOf wAnalyzeDB16)).enum →
      ∀ e, wQuotaOracle i = .error e →
      ∀ s ∈ batch, ∀ r ∈ (handleAnalyzeCommand wAnalyzeDB16 wQuotaOracle .all).db.songs,
        r.id = s.id → r.ai_processed = false) :=
  analyze_continues_after_failure wAnalyzeDB16 wQuotaOracle .all (by decide)

/-! ## C2 — marking classified items (corrected) -/

/-- C2 counterexample: a batch of two songs whose AI response parses as
valid structured data but contains an entry only for index 1 leaves the
second song unclassified (`("s1", false)`), contradicting the claim that
every item of a successfully parsed batch ends the batch with its
classified flag set. -/
theorem analyze_missing_entry_counterexample :
    wPartialOracle 0 =
      .ok [{ song_id := 1, mood := some ["happy"], genre := none, energy := none }] ∧
    (handleAnalyzeCommand wAnalyzeDB2 wPartialOracle .all).db.songs.map
      (fun s => (s.id, s.ai_processed)) = [("s0", true), ("s1", false)] := by
  refine ⟨rfl, ?_⟩
  unfold handleAnalyzeCommand
  rw [wAnalyzeDB2_chunks]
  decide

/-- C2 (amended): for a batch whose AI call succeeds and parses, exactly
the items that appear in the response with an in-range index end the run
classified — even when the response assigns them no value for any
requested type — while the batch's items that do not appear in the
response are left unclassified (available for a later run). -/
theorem analyze_marks_response_entries (db : DB)
    (oracle : Nat → Except JsError (List RawAnalysis)) (atype : AnalysisType)
    (hnd : (db.songs.map Song.id).Nodup) :
    ∀ (i : Nat) (batch : List Song) (raws : List RawAnalysis),
      (i, batch) ∈ (chunkList BATCH_SIZE (unprocessedOf db)).enum →
      oracle i = .ok raws →
      (∀ a ∈ parseResponse batch raws,
        ∀ r ∈ (handleAnalyzeCommand db oracle atype).db.songs, r.id = a.song_id →
          r.ai_processed = true) ∧
      (∀ s ∈ batch, s.id ∉ (parseResponse batch raws).map (fun a => a.song_id) →
        ∀ r ∈ (handleAnalyzeCommand db oracle atype).db.songs, r.id = s.id →
          r.ai_processed = false) := by
  intro i batch raws hib hok
  constructor
  · intro a ha r hr hrid
    have hx : a.song_id ∈ okParsedIds oracle (chunkList BATCH_SIZE (unprocessedOf db)).enum := by
      unfold okParsedIds
      refine List.mem_flatten.mpr
        ⟨(parseResponse batch raws).map (fun a => a.song_id), ?_, ?_⟩
      · exact List.mem_filterMap.mpr ⟨(i, batch), hib, by rw [hok]⟩
      · exact List.mem_map_of_mem _ ha
    exact analyze_row_marked db oracle atype a.song_id hx r hr hrid
  · intro s hs hsnot r hr hrid
    have hsmem : s ∈ unprocessedOf db := by
      rw [← chunkList_flatten BATCH_SIZE (by decide) (unprocessedOf db)]
      exact List.mem_flatten.mpr
        ⟨batch, List.getElem?_mem (List.mk_mem_enum_iff_getElem?.mp hib), hs⟩
    have hnot : s.id ∉ okParsedIds oracle (chunkList BATCH_SIZE (unprocessedOf db)).enum :=
      analyze_not_in_okIds db oracle hnd i batch hib s hs
        (fun raws' hok' => by rw [hok] at hok'; cases hok'; exact hsnot)
    exact analyze_row_unmarked db oracle atype hnd s hsmem hnot r hr hrid

/-- Witness for the amended C2 at the concrete one-batch store and
partial-response oracle. -/
theorem analyze_marks_response_entries_witness :
    (∀ a ∈ parseResponse [wSong 0, wSong 1]
        [{ song_id := 1, mood := some ["happy"], genre := none, energy := none }],
      ∀ r ∈ (handleAnalyzeCommand wAnalyzeDB2 wPartialOracle .all).db.songs,
        r.id = a.song_id → r.ai_processed = true) ∧
    (∀ s ∈ [wSong 0, wSong 1],
      s.id ∉ (parseResponse [wSong 0, wSong 1]
        [{ song_id := 1, mood := some ["happy"], genre := none, energy := none }]).map
          (fun a => a.song_id) →
      ∀ r ∈ (handleAnalyzeCommand wAnalyzeDB2 wPartialOracle .all).db.songs,
        r.id = s.id → r.ai_processed = false) :=
  analyze_marks_response_entries wAnalyzeDB2 wPartialOracle .all (by decide)
    0 [wSong 0, wSong 1]
    [{ song_id := 1, mood := some ["happy"], genre := none, energy := none }]
    (by rw [wAnalyzeDB2_chunks]; decide) rfl

/-! ## C5 — filter semantics -/

/-- C5: A classified item matches a suggestion's filter iff, for every
dimension present in the filter, the item's values for that dimension
intersect the filter's set — an absent dimension always matches, and for
energy the item's single value must lie in the filter's set; in
particular, an item with no energy category never matches a filter that
specifies an energy set. -/
theorem songMatches_spec (song : SongWithCats) (f : Filters) :
    (songMatches song f = true ↔
      (∀ ms, f.mood = some ms → ∃ v, v ∈ song.moods ∧ v ∈ ms) ∧
      (∀ gs, f.genre = some gs → ∃ v, v ∈ song.genres ∧ v ∈ gs) ∧
      (∀ es, f.energy = some es → ∃ e, song.energy = some e ∧ e ∈ es)) ∧
    (song.energy = none → ∀ es, f.energy = some es → songMatches song f = false) := by
  constructor
  · unfold songMatches
    cases hm : f.mood <;> cases hg : f.genre <;> cases he : f.energy <;>
      cases hse : song.energy <;>
        (simp [List.any_eq_true]; try tauto)
  · intro hnone es hes
    unfold songMatches
    rw [hes, hnone]
    simp

/-- Witness for C5 at concrete items and filters: moods `{happy, calm}`
match a mood filter `{happy, uplifting}`, and an item with no energy
category never matches a filter with an energy set. -/
theorem songMatches_spec_witness :
    songMatches ⟨"s1", ["happy", "calm"], [], some "high"⟩
      ⟨some ["happy", "uplifting"], none, some ["high"]⟩ = true ∧
    songMatches ⟨"s1", ["happy", "calm"], [], none⟩
      ⟨none, none, some ["high"]⟩ = false := by
  constructor
  · refine ((songMatches_spec ⟨"s1", ["happy", "calm"], [], some "high"⟩
      ⟨some ["happy", "uplifting"], none, some ["high"]⟩).1).mpr ⟨?_, ?_, ?_⟩
    · intro ms hms
      injection hms with h
      subst h
      exact ⟨"happy", by decide, by decide⟩
    · intro gs hgs
      cases hgs
    · intro es hes
      injection hes with h
      subst h
      exact ⟨"high", rfl, by decide⟩
  · exact (songMatches_spec ⟨"s1", ["happy", "calm"], [], none⟩
      ⟨none, none, some ["high"]⟩).2 rfl ["high"] rfl

/-! ## C3 — empty-match suggestions -/

/-- C3 counterexample: at a store with one classified song, a suggestion
whose filter matches no classified item leaves the store unchanged —
in particular no playlist row named after the suggestion is created, and
the playlists relation stays empty, contradicting the claim that an
empty-match suggestion still yields a playlist row. -/
theorem create_empty_match_counterexample :
    ((wCreateDB.songs.filter (fun s => s.ai_processed)).map (songWithCats wCreateDB)).filter
        (fun s => songMatches s wEmptySuggestion.filters) = [] ∧
    createPlaylists wCreateDB [wEmptySuggestion] (fun _ => "plX") = wCreateDB ∧
    (createPlaylists wCreateDB [wEmptySuggestion] (fun _ => "plX")).playlists = [] ∧
    (createPlaylists wCreateDB [wEmptySuggestion]
      (fun _ => "plX")).getPlaylistByName "Empty" = none := by
  refine ⟨rfl, rfl, rfl, rfl⟩

/-- C3 (amended): a suggestion whose filter matches no classified item is
skipped without touching the store: no playlist row (and no membership) is
created or kept for it; playlist rows are only written for suggestions
with at least one matching song. -/
theorem create_empty_match_skips (snapshot : List SongWithCats) (db : DB)
    (sug : Suggestion) (freshId : String)
    (h : snapshot.filter (fun s => songMatches s sug.filters) = []) :
    processSuggestion snapshot db sug freshId = db := by
  unfold processSuggestion
  rw [h]
  simp

/-- Witness for the amended C3 on the concrete empty-match suggestion. -/
theorem create_empty_match_skips_witness :
    processSuggestion [⟨"s1", ["happy"], [], none⟩] wCreateDB wEmptySuggestion "plX" =
      wCreateDB :=
  create_empty_match_skips [⟨"s1", ["happy"], [], none⟩] wCreateDB wEmptySuggestion "plX"
    (by rfl)

/-! ## Publish-run lemmas -/

theorem pushAddLoop_events (ao : String → String → Except JsError Unit) (ypid : String)
    (songs : List Song) :
    ∀ ev ∈ (pushAddLoop ao ypid songs).1, ∃ v, ev = .remoteAdd ypid v := by
  induction songs with
  | nil => intro ev hev; cases hev
  | cons song rest ih =>
    intro ev hev
    unfold pushAddLoop at hev
    cases hr : ao ypid song.id with
    | ok u =>
      rw [hr] at hev
      dsimp only at hev
      rcases List.mem_cons.mp hev with h | h
      · exact ⟨song.id, h⟩
      · exact ih ev h
    | error e =>
      rw [hr] at hev
      dsimp only at hev
      by_cases hq : isQuotaError e = true
      · rw [if_pos hq] at hev
        rcases List.mem_cons.mp hev with h | h
        · exact ⟨song.id, h⟩
        · cases h
      · rw [if_neg hq] at hev
        rcases List.mem_cons.mp hev with h | h
        · exact ⟨song.id, h⟩
        · exact ih ev h

theorem mem_update_playlists (db : DB) (xid y : String) (q : Playlist)
    (hq : q ∈ (db.updatePlaylistYouTubeId xid y).playlists) :
    ∃ q0 ∈ db.playlists,
      q = if q0.id = xid then { q0 with youtube_playlist_id := some y } else q0 := by
  unfold DB.updatePlaylistYouTubeId at hq
  obtain ⟨q0, hq0, him⟩ := List.mem_map.mp hq
  exact ⟨q0, hq0, him.symm⟩

theorem update_establishes (db : DB) (xid y : String) :
    ∀ q ∈ (db.updatePlaylistYouTubeId xid y).playlists, q.id = xid →
      q.youtube_playlist_id ≠ none := by
  intro q hq hqid
  obtain ⟨q0, _, him⟩ := mem_update_playlists db xid y q hq
  by_cases h : q0.id = xid
  · rw [if_pos h] at him
    rw [him]
    simp
  · rw [if_neg h] at him
    rw [him] at hqid
    exact absurd hqid h

theorem pushPlaylist_empty (co : String → Except JsError String)
    (ao : String → String → Except JsError Unit) (db : DB) (p : Playlist)
    (h0 : (db.getPlaylistSongs p.id).length = 0) :
    pushPlaylist co ao db p = ⟨db, [], 0, 0, false⟩ := by
  unfold pushPlaylist
  rw [if_pos h0]

theorem pushPlaylist_skip (co : String → Except JsError String)
    (ao : String → String → Except JsError Unit) (db : DB) (p : Playlist) (z : String)
    (h0 : ¬(db.getPlaylistSongs p.id).length = 0) (hp : p.youtube_playlist_id = some z) :
    pushPlaylist co ao db p = ⟨db, [], 0, 0, false⟩ := by
  unfold pushPlaylist
  rw [if_neg h0, hp]

theorem pushPlaylist_createError (co : String → Except JsError String)
    (ao : String → String → Except JsError Unit) (db : DB) (p : Playlist) (e : JsError)
    (h0 : ¬(db.getPlaylistSongs p.id).length = 0) (hp : p.youtube_playlist_id = none)
    (hco : co p.name = .error e) :
    pushPlaylist co ao db p =
      ⟨db, [.remoteCreate p.id p.name], 0, 0, isQuotaError e⟩ := by
  unfold pushPlaylist
  rw [if_neg h0, hp, hco]

theorem pushPlaylist_createOk (co : String → Except JsError String)
    (ao : String → String → Except JsError Unit) (db : DB) (p : Playlist) (ypid : String)
    (h0 : ¬(db.getPlaylistSongs p.id).length = 0) (hp : p.youtube_playlist_id = none)
    (hco : co p.name = .ok ypid) :
    pushPlaylist co ao db p =
      ⟨db.updatePlaylistYouTubeId p.id ypid,
       .remoteCreate p.id p.name :: .persistRemoteId p.id ypid ::
         (pushAddLoop ao ypid (db.getPlaylistSongs p.id)).1,
       (pushAddLoop ao ypid (db.getPlaylistSongs p.id)).2.1,
       (pushAddLoop ao ypid (db.getPlaylistSongs p.id)).2.2.1,
       (pushAddLoop ao ypid (db.getPlaylistSongs p.id)).2.2.2⟩ := by
  unfold pushPlaylist
  rw [if_neg h0, hp, hco]

theorem pushPlaylist_db_cases (co : String → Except JsError String)
    (ao : String → String → Except JsError Unit) (db : DB) (p : Playlist) :
    (pushPlaylist co ao db p).db = db ∨
      ∃ y, (pushPlaylist co ao db p).db = db.updatePlaylistYouTubeId p.id y := by
  by_cases h0 : (db.getPlaylistSongs p.id).length = 0
  · rw [pushPlaylist_empty co ao db p h0]; exact Or.inl rfl
  · cases hp : p.youtube_playlist_id with
    | some z => rw [pushPlaylist_skip co ao db p z h0 hp]; exact Or.inl rfl
    | none =>
      cases hco : co p.name with
      | error e => rw [pushPlaylist_createError co ao db p e h0 hp hco]; exact Or.inl rfl
      | ok ypid => rw [pushPlaylist_createOk co ao db p ypid h0 hp hco]; exact Or.inr ⟨ypid, rfl⟩

theorem pushPlaylist_remote_mono (co : String → Except JsError String)
    (ao : String → String → Except JsError Unit) (db : DB) (p : Playlist) (pid : String)
    (h : ∀ q ∈ db.playlists, q.id = pid → q.youtube_playlist_id ≠ none) :
    ∀ q ∈ (pushPlaylist co ao db p).db.playlists, q.id = pid →
      q.youtube_playlist_id ≠ none := by
  rcases pushPlaylist_db_cases co ao db p with hdb | ⟨y, hdb⟩
  · rw [hdb]; exact h
  · rw [hdb]
    intro q hq hqid
    obtain ⟨q0, hq0, him⟩ := mem_update_playlists db p.id y q hq
    by_cases hx : q0.id = p.id
    · rw [if_pos hx] at him
      rw [him]
      simp
    · rw [if_neg hx] at him
      subst him
      exact h _ hq0 hqid

theorem pushLoop_remote_mono (co : String → Except JsError String)
    (ao : String → String → Except JsError Unit) (ps : List Playlist) :
    ∀ (db : DB) (pid : String),
      (∀ q ∈ db.playlists, q.id = pid → q.youtube_playlist_id ≠ none) →
      ∀ q ∈ (pushLoop co ao ps db).1.playlists, q.id = pid →
        q.youtube_playlist_id ≠ none := by
  induction ps with
  | nil => intro db pid h; exact h
  | cons p rest ih =>
    intro db pid h
    unfold pushLoop
    by_cases ha : (pushPlaylist co ao db p).aborted = true
    · rw [if_pos ha]
      exact pushPlaylist_remote_mono co ao db p pid h
    · rw [if_neg ha]
      exact ih (pushPlaylist co ao db p).db pid
        (pushPlaylist_remote_mono co ao db p pid h)

theorem pushPlaylist_persist_mem (co : String → Except JsError String)
    (ao : String → String → Except JsError Unit) (db : DB) (p : Playlist)
    (pid y : String)
    (h : PushEvent.persistRemoteId pid y ∈ (pushPlaylist co ao db p).events) :
    pid = p.id ∧ (pushPlaylist co ao db p).db = db.updatePlaylistYouTubeId p.id y := by
  by_cases h0 : (db.getPlaylistSongs p.id).length = 0
  · rw [pushPlaylist_empty co ao db p h0] at h; cases h
  · cases hp : p.youtube_playlist_id with
    | some z => rw [pushPlaylist_skip co ao db p z h0 hp] at h; cases h
    | none =>
      cases hco : co p.name with
      | error e =>
        rw [pushPlaylist_createError co ao db p e h0 hp hco] at h
        rcases List.mem_cons.mp h with h1 | h1
        · cases h1
        · cases h1
      | ok ypid =>
        rw [pushPlaylist_createOk co ao db p ypid h0 hp hco] at h ⊢
        rcases List.mem_cons.mp h with h1 | h1
        · cases h1
        · rcases List.mem_cons.mp h1 with h2 | h2
          · injection h2 with e1 e2
            subst e1; subst e2
            exact ⟨rfl, rfl⟩
          · obtain ⟨v, hv⟩ := pushAddLoop_events ao ypid (db.getPlaylistSongs p.id) _ h2
            cases hv

theorem pushPlaylist_create_mem (co : String → Except JsError String)
    (ao : String → String → Except JsError Unit) (db : DB) (p : Playlist)
    (pid name : String)
    (h : PushEvent.remoteCreate pid name ∈ (pushPlaylist co ao db p).events) :
    pid = p.id ∧ p.youtube_playlist_id = none := by
  by_cases h0 : (db.getPlaylistSongs p.id).length = 0
  · rw [pushPlaylist_empty co ao db p h0] at h; cases h
  · cases hp : p.youtube_playlist_id with
    | some z => rw [pushPlaylist_skip co ao db p z h0 hp] at h; cases h
    | none =>
      cases hco : co p.name with
      | error e =>
        rw [pushPlaylist_createError co ao db p e h0 hp hco] at h
        rcases List.mem_cons.mp h with h1 | h1
        · injection h1 with e1 e2; exact ⟨e1, rfl⟩
        · cases h1
      | ok ypid =>
        rw [pushPlaylist_createOk co ao db p ypid h0 hp hco] at h
        rcases List.mem_cons.mp h with h1 | h1
        · injection h1 with e1 e2; exact ⟨e1, rfl⟩
        · rcases List.mem_cons.mp h1 with h2 | h2
          · cases h2
          · obtain ⟨v, hv⟩ := pushAddLoop_events ao ypid (db.getPlaylistSongs p.id) _ h2
            cases hv

theorem pushLoop_persist_sets (co : String → Except JsError String)
    (ao : String → String → Except JsError Unit) (ps : List Playlist) :
    ∀ (db : DB) (pid y : String),
      PushEvent.persistRemoteId pid y ∈ (pushLoop co ao ps db).2 →
      ∀ q ∈ (pushLoop co ao ps db).1.playlists, q.id = pid →
        q.youtube_playlist_id ≠ none := by
  induction ps with
  | nil => intro db pid y h; cases h
  | cons p rest ih =>
    intro db pid y h
    unfold pushLoop at h ⊢
    by_cases ha : (pushPlaylist co ao db p).aborted = true
    · rw [if_pos ha] at h ⊢
      obtain ⟨hpid, hdb⟩ := pushPlaylist_persist_mem co ao db p pid y h
      rw [hdb, hpid]
      exact update_establishes db p.id y
    · rw [if_neg ha] at h ⊢
      rcases List.mem_append.mp h with h1 | h1
      · obtain ⟨hpid, hdb⟩ := pushPlaylist_persist_mem co ao db p pid y h1
        apply pushLoop_remote_mono co ao rest (pushPlaylist co ao db p).db pid
        rw [hdb, hpid]
        exact update_establishes db p.id y
      · exact ih (pushPlaylist co ao db p).db pid y h1

theorem pushLoop_create_origin (co : String → Except JsError String)
    (ao : String → String → Except JsError Unit) (ps : List Playlist) :
    ∀ (db : DB) (pid name : String),
      PushEvent.remoteCreate pid name ∈ (pushLoop co ao ps db).2 →
      ∃ p ∈ ps, p.id = pid ∧ p.youtube_playlist_id = none := by
  induction ps with
  | nil => intro db pid name h; cases h
  | cons p rest ih =>
    intro db pid name h
    unfold pushLoop at h
    by_cases ha : (pushPlaylist co ao db p).aborted = true
    · rw [if_pos ha] at h
      obtain ⟨hpid, hnone⟩ := pushPlaylist_create_mem co ao db p pid name h
      exact ⟨p, List.mem_cons_self p rest, hpid.symm, hnone⟩
    · rw [if_neg ha] at h
      rcases List.mem_append.mp h with h1 | h1
      · obtain ⟨hpid, hnone⟩ := pushPlaylist_create_mem co ao db p pid name h1
        exact ⟨p, List.mem_cons_self p rest, hpid.symm, hnone⟩
      · obtain ⟨q, hq, hqs⟩ := ih (pushPlaylist co ao db p).db pid name h1
        exact ⟨q, List.mem_cons_of_mem p hq, hqs⟩

/-! ## C4 — publish persists the remote id before member adds -/

/-- C4: During publish, (1) a playlist already carrying a remote
identifier is skipped untouched, with no remote call and no store write;
(2) for a playlist without a remote identifier and with at least one
member whose create call succeeds, the store update persisting the
obtained remote identifier happens with the create call, and every
remaining event of the playlist's trace — everything after the
`remoteCreate` and the `persistRemoteId` — is a member-add call, so the
identifier is persisted before any member-add is attempted; and (3) once a
run's trace persisted a remote identifier for a local playlist, a second
publish run (under any oracles) never issues a create call for that local
playlist again. -/
theorem push_persist_before_adds (co : String → Except JsError String)
    (ao : String → String → Except JsError Unit) :
    (∀ (d : DB) (p : Playlist) (y : String), p.youtube_playlist_id = some y →
      pushPlaylist co ao d p = ⟨d, [], 0, 0, false⟩) ∧
    (∀ (d : DB) (p : Playlist) (ypid : String), p.youtube_playlist_id = none →
      d.getPlaylistSongs p.id ≠ [] → co p.name = .ok ypid →
      (pushPlaylist co ao d p).db = d.updatePlaylistYouTubeId p.id ypid ∧
      ∃ addEvs, (pushPlaylist co ao d p).events =
          .remoteCreate p.id p.name :: .persistRemoteId p.id ypid :: addEvs ∧
        ∀ ev ∈ addEvs, ∃ v, ev = .remoteAdd ypid v) ∧
    (∀ (db : DB) (pid y : String),
      PushEvent.persistRemoteId pid y ∈ (pushRun co ao db).2 →
      ∀ (co2 : String → Except JsError String)
        (ao2 : String → String → Except JsError Unit) (name : String),
        PushEvent.remoteCreate pid name ∉ (pushRun co2 ao2 (pushRun co ao db).1).2) := by
  refine ⟨?_, ?_, ?_⟩
  · intro d p y hp
    by_cases h0 : (d.getPlaylistSongs p.id).length = 0
    · exact pushPlaylist_empty co ao d p h0
    · exact pushPlaylist_skip co ao d p y h0 hp
  · intro d p ypid hp hne hco
    have h0 : ¬(d.getPlaylistSongs p.id).length = 0 :=
      fun hl => hne (List.length_eq_zero.mp hl)
    rw [pushPlaylist_createOk co ao d p ypid h0 hp hco]
    exact ⟨rfl, (pushAddLoop ao ypid (d.getPlaylistSongs p.id)).1, rfl,
      pushAddLoop_events ao ypid (d.getPlaylistSongs p.id)⟩
  · intro db pid y hper co2 ao2 name hc
    have hset := pushLoop_persist_sets co ao db.playlists db pid y hper
    obtain ⟨p, hp, hpid, hnone⟩ :=
      pushLoop_create_origin co2 ao2 ((pushRun co ao db).1).playlists
        (pushRun co ao db).1 pid name hc
    exact hset p hp hpid hnone

/-- Witness for C4 at a concrete store with one pushable playlist, one
already-pushed playlist, and always-succeeding oracles. -/
theorem push_persist_before_adds_witness :
    pushPlaylist wCreateOracle wAddOracle wPushDB wPushedPlaylist =
      ⟨wPushDB, [], 0, 0, false⟩ ∧
    ((pushPlaylist wCreateOracle wAddOracle wPushDB wLocalPlaylist).db =
      wPushDB.updatePlaylistYouTubeId "pl1" "YT1" ∧
     ∃ addEvs, (pushPlaylist wCreateOracle wAddOracle wPushDB wLocalPlaylist).events =
        .remoteCreate "pl1" "Mix" :: .persistRemoteId "pl1" "YT1" :: addEvs ∧
       ∀ ev ∈ addEvs, ∃ v, ev = .remoteAdd "YT1" v) ∧
    PushEvent.remoteCreate "pl1" "Mix" ∉
      (pushRun wCreateOracle wAddOracle
        (pushRun wCreateOracle wAddOracle wPushDB).1).2 := by
  obtain ⟨h1, h2, h3⟩ := push_persist_before_adds wCreateOracle wAddOracle
  exact ⟨h1 wPushDB wPushedPlaylist "YT2" rfl,
    h2 wPushDB wLocalPlaylist "YT1" rfl (by decide) rfl,
    h3 wPushDB "pl1" "YT1" (by decide) wCreateOracle wAddOracle "Mix"⟩

/-! ## Dispatcher lemmas -/

theorem jsLowerChar_idem (c : Char) : jsLowerChar (jsLowerChar c) = jsLowerChar c := by
  have hnone : ∀ p ∈ lowerPairs, lowerPairs.find? (fun q => q.1 = p.2) = none := by decide
  cases hf : lowerPairs.find? (fun p => p.1 = c) with
  | none => simp [jsLowerChar, hf]
  | some p =>
    have hmem : p ∈ lowerPairs := List.mem_of_find?_eq_some hf
    simp [jsLowerChar, hf, hnone p hmem]

theorem mem_jsLowerList_lowered (cs : List Char) :
    ∀ c ∈ jsLowerList cs, jsLowerChar c = c := by
  intro c hc
  obtain ⟨c0, _, him⟩ := List.mem_map.mp hc
  rw [← him]
  exact jsLowerChar_idem c0

theorem isWs_jsLowerChar (c : Char) : isWsChar (jsLowerChar c) = isWsChar c := by
  have hws : ∀ p ∈ lowerPairs, isWsChar p.1 = false ∧ isWsChar p.2 = false := by decide
  cases hf : lowerPairs.find? (fun p => p.1 = c) with
  | none => simp [jsLowerChar, hf]
  | some p =>
    have hmem : p ∈ lowerPairs := List.mem_of_find?_eq_some hf
    have h1 : p.1 = c := by
      have := List.find?_some hf
      simpa using this
    rw [jsLowerChar, hf]
    dsimp only
    rw [(hws p hmem).2, ← h1, (hws p hmem).1]

theorem dropWhile_eq_self_of_head (p : Char → Bool) (cs : List Char)
    (h : ∀ c, cs.head? = some c → p c = false) : cs.dropWhile p = cs := by
  cases cs with
  | nil => rfl
  | cons a l =>
    rw [List.dropWhile_cons, h a rfl]
    simp

theorem mem_jsTrimList (cs : List Char) : ∀ c ∈ jsTrimList cs, c ∈ cs := by
  intro c hc
  unfold jsTrimList at hc
  rw [List.mem_reverse] at hc
  have h1 := (List.dropWhile_suffix (l := (cs.dropWhile isWsChar).reverse)
    isWsChar).sublist.subset hc
  rw [List.mem_reverse] at h1
  exact (List.dropWhile_suffix (l := cs) isWsChar).sublist.subset h1

theorem mem_stripLeadSlash (cs : List Char) : ∀ c ∈ stripLeadSlash cs, c ∈ cs := by
  intro c hc
  unfold stripLeadSlash at hc
  split at hc
  · exact List.mem_cons_of_mem _ hc
  · exact hc

theorem jsSplitWsGo_eq_nil (cs : List Char)
    (h : cs.dropWhile (fun c => !isWsChar c) = []) :
    jsSplitWsGo cs = [cs.takeWhile (fun c => !isWsChar c)] := by
  rw [jsSplitWsGo]
  split
  · rfl
  · next heq => rw [h] at heq; cases heq

theorem jsSplitWsGo_eq_cons (cs : List Char) (head : Char) (t : List Char)
    (h : cs.dropWhile (fun c => !isWsChar c) = head :: t) :
    jsSplitWsGo cs =
      cs.takeWhile (fun c => !isWsChar c) :: jsSplitWsGo (t.dropWhile isWsChar) := by
  rw [jsSplitWsGo]
  split
  · next heq => rw [h] at heq; cases heq
  · next head' t' heq =>
    have := h.symm.trans heq
    injection this with e1 e2
    rw [e2]

theorem mem_jsSplitWsGo (cs : List Char) :
    ∀ part ∈ jsSplitWsGo cs, ∀ c ∈ part, c ∈ cs := by
  have H : ∀ (k : Nat) (cs : List Char), cs.length ≤ k →
      ∀ part ∈ jsSplitWsGo cs, ∀ c ∈ part, c ∈ cs := by
    intro k
    induction k with
    | zero =>
      intro cs hl part hpart c hc
      have : cs = [] := List.eq_nil_of_length_eq_zero (by omega)
      subst this
      rw [jsSplitWsGo_eq_nil [] rfl] at hpart
      rcases List.mem_cons.mp hpart with h | h
      · subst h; cases hc
      · cases h
    | succ k ih =>
      intro cs hl part hpart c hc
      cases hdw : cs.dropWhile (fun c => !isWsChar c) with
      | nil =>
        rw [jsSplitWsGo_eq_nil cs hdw] at hpart
        rcases List.mem_cons.mp hpart with h | h
        · subst h
          exact (List.takeWhile_prefix _).sublist.subset hc
        · cases h
      | cons head t =>
        rw [jsSplitWsGo_eq_cons cs head t hdw] at hpart
        have htcs : t.Sublist cs := by
          have h1 : (head :: t).Sublist cs := by
            rw [← hdw]
            exact (List.dropWhile_suffix _).sublist
          exact (List.sublist_cons_self head t).trans h1
        rcases List.mem_cons.mp hpart with h | h
        · subst h
          exact (List.takeWhile_prefix _).sublist.subset hc
        · have hlen : (t.dropWhile isWsChar).length ≤ k := by
            have h1 := (List.dropWhile_suffix (l := t) isWsChar).sublist.length_le
            have h2 : (head :: t).length ≤ cs.length := by
              rw [← hdw]
              exact (List.dropWhile_suffix _).sublist.length_le
            simp only [List.length_cons] at h2
            omega
          have := ih (t.dropWhile isWsChar) hlen part h c hc
          exact htcs.subset ((List.dropWhile_suffix (l := t) isWsChar).sublist.subset this)
  exact H cs.length cs le_rfl

theorem takeWhile_append_ws (w rest : List Char) (hw : ∀ c ∈ w, isWsChar c = false) :
    (w ++ ' ' :: rest).takeWhile (fun c => !isWsChar c) = w ∧
    (w ++ ' ' :: rest).dropWhile (fun c => !isWsChar c) = ' ' :: rest := by
  induction w with
  | nil => constructor <;> simp [List.takeWhile_cons, List.dropWhile_cons, isWsChar]
  | cons a w' ih =>
    have ha : isWsChar a = false := hw a (List.mem_cons_self a w')
    have ih' := ih (fun c hc => hw c (List.mem_cons_of_mem a hc))
    constructor
    · rw [List.cons_append, List.takeWhile_cons, ha]
      simp only [Bool.not_false, if_true]
      rw [ih'.1]
    · rw [List.cons_append, List.dropWhile_cons, ha]
      simp only [Bool.not_false, if_true]
      exact ih'.2

theorem all_nonws_take_drop (w : List Char) (hw : ∀ c ∈ w, isWsChar c = false) :
    w.takeWhile (fun c => !isWsChar c) = w ∧
    w.dropWhile (fun c => !isWsChar c) = [] := by
  induction w with
  | nil => exact ⟨rfl, rfl⟩
  | cons a w' ih =>
    have ha : isWsChar a = false := hw a (List.mem_cons_self a w')
    have ih' := ih (fun c hc => hw c (List.mem_cons_of_mem a hc))
    constructor
    · rw [List.takeWhile_cons, ha]
      simp only [Bool.not_false, if_true]
      rw [ih'.1]
    · rw [List.dropWhile_cons, ha]
      simp only [Bool.not_false, if_true]
      exact ih'.2

theorem jsSplitWsGo_token (w rest : List Char) (hw : ∀ c ∈ w, isWsChar c = false) :
    jsSplitWsGo (w ++ ' ' :: rest) = w :: jsSplitWsGo (rest.dropWhile isWsChar) := by
  have h := takeWhile_append_ws w rest hw
  rw [jsSplitWsGo_eq_cons _ ' ' rest h.2, h.1]

theorem jsSplitWsGo_last (w : List Char) (hw : ∀ c ∈ w, isWsChar c = false) :
    jsSplitWsGo w = [w] := by
  have h := all_nonws_take_drop w hw
  rw [jsSplitWsGo_eq_nil w h.2, h.1]

theorem extractPlaylistIdGo_sub :
    ∀ (cs pid : List Char), extractPlaylistIdGo cs = some pid → ∀ c ∈ pid, c ∈ cs := by
  intro cs
  induction cs with
  | nil => intro pid h; cases h
  | cons a rest ih =>
    intro pid h c hc
    unfold extractPlaylistIdGo at h
    by_cases hcond : (a = '?' ∨ a = '&') ∧ startsWithList rest "list=".data = true
    · rw [if_pos hcond] at h
      cases hcap : (rest.drop 5).takeWhile (fun x => x ≠ '&') with
      | nil =>
        rw [hcap] at h
        exact List.mem_cons_of_mem a (ih pid h c hc)
      | cons d ds =>
        rw [hcap] at h
        dsimp only at h
        injection h with hpid
        rw [← hpid] at hc
        have h1 : c ∈ (rest.drop 5).takeWhile (fun x => x ≠ '&') := by
          rw [hcap]; exact hc
        have h2 : c ∈ rest :=
          (List.drop_sublist 5 rest).subset ((List.takeWhile_prefix _).sublist.subset h1)
        exact List.mem_cons_of_mem a h2
    · rw [if_neg hcond] at h
      exact List.mem_cons_of_mem a (ih pid h c hc)

theorem dropWhile_eq_self_of_all (p : Char → Bool) (cs : List Char)
    (h : ∀ c ∈ cs, p c = false) : cs.dropWhile p = cs := by
  cases cs with
  | nil => rfl
  | cons a l =>
    rw [List.dropWhile_cons, h a (List.mem_cons_self a l)]
    simp

theorem jsTrimList_of_all_nonws (cs : List Char) (h : ∀ c ∈ cs, isWsChar c = false) :
    jsTrimList cs = cs := by
  unfold jsTrimList
  rw [dropWhile_eq_self_of_all _ _ h,
    dropWhile_eq_self_of_all _ _ (fun c hc => h c (List.mem_reverse.mp hc)),
    List.reverse_reverse]

/-! ## C10 — the dispatcher lowercases arguments -/

/-- C10: The dispatcher lowercases the whole input line — arguments
included — before splitting, so every part handed to a command handler is
lowercase-invariant; consequently `sources add <url>` extracts the
collection identifier from the lowercased URL, checks
`getSourceByYoutubeId` against it, stores it as the new source's remote
identifier, and that stored identifier is itself lowercase. -/
theorem sources_add_lowercased :
    (∀ input : List Char, ∀ part ∈ preprocess input, allLowered part = true) ∧
    (∀ (db : DB) (freshId : Nat) (url : List Char), url ≠ [] →
      (∀ c ∈ url, isWsChar c = false) →
      preprocess ("sources add ".data ++ url) =
        ["sources".data, "add".data, jsLowerList url] ∧
      dispatchSourcesAdd db freshId ("sources add ".data ++ url) =
        (match extractPlaylistId (jsLowerList url) with
         | none => db
         | some pid =>
           match db.getSourceByYoutubeId (String.mk pid) with
           | some _ => db
           | none =>
             db.insertSource freshId .playlist
               ("Playlist " ++ String.mk (pid.take 8) ++ "...") (some (String.mk pid))) ∧
      (∀ pid, extractPlaylistId (jsLowerList url) = some pid →
        allLowered pid = true)) := by
  constructor
  · intro input part hpart
    rw [allLowered, List.all_eq_true]
    intro c hc
    simp only [decide_eq_true_eq]
    unfold preprocess at hpart
    have hmem : c ∈ stripLeadSlash (jsLowerList (jsTrimList input)) := by
      cases hni : stripLeadSlash (jsLowerList (jsTrimList input)) with
      | nil =>
        rw [hni] at hpart
        simp only [jsSplitWs, List.mem_singleton] at hpart
        subst hpart
        cases hc
      | cons a l =>
        rw [hni] at hpart
        have : jsSplitWs (a :: l) = jsSplitWsGo (a :: l) := rfl
        rw [this] at hpart
        rw [← hni]
        rw [← hni] at hpart
        exact mem_jsSplitWsGo _ part hpart c hc
    have h2 : c ∈ jsLowerList (jsTrimList input) := mem_stripLeadSlash _ c hmem
    exact mem_jsLowerList_lowered (jsTrimList input) c h2
  · intro db freshId url hne hnws
    have hlne : jsLowerList url ≠ [] := by
      cases url with
      | nil => exact absurd rfl hne
      | cons a l => simp [jsLowerList]
    have hlnws : ∀ c ∈ jsLowerList url, isWsChar c = false := by
      intro c hc
      obtain ⟨c0, hc0, him⟩ := List.mem_map.mp hc
      rw [← him, isWs_jsLowerChar]
      exact hnws c0 hc0
    obtain ⟨c, rs, hur⟩ : ∃ c rs, url.reverse = c :: rs := by
      cases hu : url.reverse with
      | nil => exact absurd (List.reverse_eq_nil_iff.mp hu) hne
      | cons c rs => exact ⟨c, rs, rfl⟩
    have htrim : jsTrimList ("sources add ".data ++ url) = "sources add ".data ++ url := by
      have hinner : List.dropWhile isWsChar ("sources add ".data ++ url) =
          "sources add ".data ++ url := by
        refine dropWhile_eq_self_of_head isWsChar _ (fun d hch => ?_)
        have h0 : ("sources add ".data ++ url).head? = some 's' := rfl
        rw [h0] at hch
        injection hch with he
        rw [← he]
        decide
      have houter : List.dropWhile isWsChar ((c :: rs) ++ ("sources add ".data).reverse) =
          (c :: rs) ++ ("sources add ".data).reverse := by
        refine dropWhile_eq_self_of_head isWsChar _ (fun d hd => ?_)
        have h0 : ((c :: rs) ++ ("sources add ".data).reverse).head? = some c := rfl
        rw [h0] at hd
        injection hd with he
        rw [← he]
        have hcurl : c ∈ url := by
          rw [← List.mem_reverse, hur]
          exact List.mem_cons_self c rs
        exact hnws c hcurl
      unfold jsTrimList
      rw [hinner, List.reverse_append, hur, houter, ← hur, ← List.reverse_append,
        List.reverse_reverse]
    have hlow : jsLowerList ("sources add ".data ++ url) =
        "sources add ".data ++ jsLowerList url := by
      unfold jsLowerList
      rw [List.map_append,
        show List.map jsLowerChar "sources add ".data = "sources add ".data from by decide]
    have hsplit : jsSplitWs ("sources add ".data ++ jsLowerList url) =
        ["sources".data, "add".data, jsLowerList url] := by
      show jsSplitWsGo ("sources add ".data ++ jsLowerList url) = _
      rw [show "sources add ".data ++ jsLowerList url =
        "sources".data ++ ' ' :: ("add".data ++ ' ' :: jsLowerList url) from rfl]
      rw [jsSplitWsGo_token "sources".data _ (by decide)]
      rw [dropWhile_eq_self_of_head isWsChar _ (fun d hd => by
        have h0 : ("add".data ++ ' ' :: jsLowerList url).head? = some 'a' := rfl
        rw [h0] at hd
        injection hd with he
        rw [← he]
        decide)]
      rw [jsSplitWsGo_token "add".data _ (by decide)]
      rw [dropWhile_eq_self_of_all isWsChar (jsLowerList url) hlnws]
      rw [jsSplitWsGo_last (jsLowerList url) hlnws]
    have hpre : preprocess ("sources add ".data ++ url) =
        ["sources".data, "add".data, jsLowerList url] := by
      unfold preprocess
      rw [htrim, hlow]
      rw [show stripLeadSlash ("sources add ".data ++ jsLowerList url) =
        "sources add ".data ++ jsLowerList url from rfl]
      exact hsplit
    refine ⟨hpre, ?_, ?_⟩
    · unfold dispatchSourcesAdd
      rw [hpre]
      dsimp only
      rw [if_pos ⟨rfl, rfl⟩]
      unfold handleSourcesAdd
      rw [show List.intercalate [' '] [jsLowerList url] = jsLowerList url from by
        simp [List.intercalate]]
      rw [jsTrimList_of_all_nonws (jsLowerList url) hlnws]
      rw [if_neg hlne]
    · intro pid hpid
      rw [allLowered, List.all_eq_true]
      intro c hc
      simp only [decide_eq_true_eq]
      exact mem_jsLowerList_lowered url c
        (extractPlaylistIdGo_sub (jsLowerList url) pid hpid c hc)

/-- Witness for C10: an uppercase URL is stored as its lowercased
identifier. -/
theorem sources_add_lowercased_witness :
    preprocess ("sources add ".data ++ "https://M.co/p?list=PLAbC".data) =
      ["sources".data, "add".data, jsLowerList "https://M.co/p?list=PLAbC".data] ∧
    dispatchSourcesAdd wSyncDB 2 ("sources add ".data ++ "https://M.co/p?list=PLAbC".data) =
      wSyncDB.insertSource 2 .playlist ("Playlist " ++ "plabc" ++ "...") (some "plabc") ∧
    allLowered "plabc".data = true := by
  obtain ⟨h1, h2⟩ := sources_add_lowercased
  obtain ⟨ha, hb, hc⟩ := h2 wSyncDB 2 "https://M.co/p?list=PLAbC".data (by decide) (by decide)
  refine ⟨ha, ?_, hc "plabc".data (by decide)⟩
  rw [hb]
  decide

end Djemini
